import Mathlib

/-!
# Verification of the `$1` unistroke gesture recognizer

A shallow embedding of `src/gesture-recognizer.ts` (the `DollarRecognizer`
class) and proofs about it.

Modelling conventions:

* JavaScript numbers are modelled by `ℚ` (exact arithmetic).  The library
  functions `Math.sqrt`, `Math.sin`, `Math.cos`, `Math.atan`, `Math.atan2`,
  `Math.acos` and the constant `Math.PI` are opaque to the source, so they
  are parameters of the embedding, collected in an `Ops` record.  Theorems
  assume only facts that are true of the real functions (for example
  `sqrt (a·a·b) = |a| · sqrt b` for `b ≥ 0`), and witnesses instantiate the
  record with computable functions satisfying those facts (`ratSqrt` below
  is an exact square root on perfect rational squares).
* In `ℚ` division by zero yields `0` while in JavaScript it yields
  `±Infinity` or `NaN`.  The rational model therefore has no non-finite
  values; the one place where the source actually produces non-finite
  numbers (`scaleTo` on a degenerate bounding box) is additionally modelled
  by a second, IEEE-style number type `JSNum` further below, which has
  `inf`, `ninf` and `nan` values with JavaScript semantics.
* The source's only mutation of caller-visible data is
  `points.splice(i, 0, q)` inside `resample`, which inserts interpolated
  points into the very array the caller passed to `recognize`/`addGesture`.
  `resample` is therefore embedded as a function returning both the list of
  emitted points and the final contents of the caller's array.  The
  `while`/`for` loops of `resample` and `distanceAtBestAngle` need not
  terminate for all inputs, so they take a fuel parameter and return
  `Option`; `none` models divergence (or a thrown `TypeError`, where noted).
* The template store `this.templates` is threaded explicitly: methods that
  touch it take the current store and return the new one.
-/

namespace GestureRec

/-! ## An exact square root on `ℚ`

`sqrtBS fuel lo hi n` is a fuel-bounded binary search maintaining
`lo·lo ≤ n < hi·hi`; with enough fuel it computes `⌊√n⌋`.  `ratSqrt q` is
the exact square root of `q` when `q` is a positive perfect rational
square and `0` otherwise.  It is used only to *instantiate* the `Ops`
parameter in witnesses: it satisfies `ratSqrt (q·q) = |q|`,
`ratSqrt (a·a·b) = |a| · ratSqrt b` for `0 ≤ b`, and `0 ≤ ratSqrt q`,
all of which are true of the real square root. -/

def sqrtBS : Nat → Nat → Nat → Nat → Nat
  | 0, lo, _, _ => lo
  | f+1, lo, hi, n =>
    if hi ≤ lo + 1 then lo
    else
      let m := (lo + hi) / 2
      if m * m ≤ n then sqrtBS f m hi n else sqrtBS f lo m n

def natSqrtE (n : Nat) : Nat := sqrtBS (n + 2) 0 (n + 1) n

theorem sqrtBS_eq (m : Nat) : ∀ (f lo hi n : Nat), lo ≤ m → m < hi →
    n = m * m → hi - lo ≤ f + 1 → sqrtBS f lo hi n = m := by
  intro f
  induction f with
  | zero =>
    intro lo hi n hlo hhi _ hfuel
    have : m = lo := by omega
    simp [sqrtBS, this]
  | succ f ih =>
    intro lo hi n hlo hhi hn hfuel
    by_cases hsmall : hi ≤ lo + 1
    · have : m = lo := by omega
      simp [sqrtBS, hsmall, this]
    · have h2 : lo + 2 ≤ hi := by omega
      have hmidlo : lo + 1 ≤ (lo + hi) / 2 := by omega
      have hmidhi : (lo + hi) / 2 ≤ hi - 1 := by omega
      by_cases hc : ((lo + hi) / 2) * ((lo + hi) / 2) ≤ n
      · have hmle : (lo + hi) / 2 ≤ m := by
          by_contra hlt
          push_neg at hlt
          have := Nat.mul_self_lt_mul_self hlt
          omega
        have := ih ((lo + hi) / 2) hi n hmle hhi hn (by omega)
        simp only [sqrtBS, if_neg hsmall]
        simpa [hc] using this
      · have hmlt : m < (lo + hi) / 2 := by
          by_contra hge
          push_neg at hge
          have := Nat.mul_self_le_mul_self hge
          omega
        have := ih lo ((lo + hi) / 2) n hlo hmlt hn (by omega)
        simp only [sqrtBS, if_neg hsmall]
        simpa [hc] using this

theorem natSqrtE_mul_self (m : Nat) : natSqrtE (m * m) = m := by
  have hm : m ≤ m * m := by
    rcases Nat.eq_zero_or_pos m with h | h
    · simp [h]
    · exact Nat.le_mul_of_pos_left m h
  exact sqrtBS_eq m (m * m + 2) 0 (m * m + 1) (m * m) (Nat.zero_le m)
    (by omega) rfl (by omega)

def ratSqrt (q : ℚ) : ℚ :=
  if q ≤ 0 then 0
  else if natSqrtE q.num.toNat * natSqrtE q.num.toNat = q.num.toNat ∧
          natSqrtE q.den * natSqrtE q.den = q.den
    then (natSqrtE q.num.toNat : ℚ) / (natSqrtE q.den : ℚ) else 0

theorem ratSqrt_nonneg (q : ℚ) : 0 ≤ ratSqrt q := by
  unfold ratSqrt
  split
  · exact le_refl 0
  · split
    · positivity
    · exact le_refl 0

theorem ratSqrt_mul_self (q : ℚ) : ratSqrt (q * q) = |q| := by
  rcases eq_or_ne q 0 with h0 | h0
  · simp [h0, ratSqrt]
  · have hpos : 0 < q * q := mul_self_pos.2 h0
    have hnumnat : (q * q).num.toNat = q.num.natAbs * q.num.natAbs := by
      rw [Rat.mul_self_num, ← Int.natAbs_mul_self, Int.toNat_ofNat]
    have hden : (q * q).den = q.den * q.den := Rat.mul_self_den q
    unfold ratSqrt
    rw [if_neg (not_le.2 hpos)]
    rw [hnumnat, hden, natSqrtE_mul_self, natSqrtE_mul_self, if_pos ⟨rfl, rfl⟩]
    have hdenpos : (0 : ℚ) < (q.den : ℚ) := by
      exact_mod_cast q.den_pos
    rw [Int.cast_natAbs, ← abs_of_pos hdenpos, Int.cast_abs, ← abs_div]
    rw [Rat.num_div_den]

theorem isSquare_of_sqrt_check (q : ℚ) (h0 : 0 < q)
    (h : natSqrtE q.num.toNat * natSqrtE q.num.toNat = q.num.toNat ∧
         natSqrtE q.den * natSqrtE q.den = q.den) : IsSquare q := by
  refine ⟨(natSqrtE q.num.toNat : ℚ) / (natSqrtE q.den : ℚ), ?_⟩
  have hnum : ((q.num.toNat : ℕ) : ℚ) = (q.num : ℚ) := by
    exact_mod_cast congrArg (fun z : ℤ => (z : ℚ))
      (Int.toNat_of_nonneg (le_of_lt (Rat.num_pos.2 h0)))
  rw [div_mul_div_comm, ← Nat.cast_mul, ← Nat.cast_mul, h.1, h.2, hnum]
  rw [Rat.num_div_den]

theorem ratSqrt_eq_zero_of_not_isSquare (q : ℚ) (h0 : 0 < q)
    (h : ¬ IsSquare q) : ratSqrt q = 0 := by
  unfold ratSqrt
  rw [if_neg (not_le.2 h0)]
  rw [if_neg (fun hc => h (isSquare_of_sqrt_check q h0 hc))]

theorem ratSqrt_sq_mul (a b : ℚ) (hb : 0 ≤ b) :
    ratSqrt (a * a * b) = |a| * ratSqrt b := by
  rcases eq_or_ne a 0 with ha | ha
  · simp [ha, ratSqrt]
  rcases eq_or_lt_of_le hb with hb0 | hbpos
  · rw [← hb0]
    simp [ratSqrt]
  by_cases hsq : IsSquare b
  · obtain ⟨c, hc⟩ := hsq
    have h1 : a * a * b = (a * c) * (a * c) := by rw [hc]; ring
    rw [h1, ratSqrt_mul_self, hc, ratSqrt_mul_self, abs_mul]
  · have habpos : 0 < a * a * b := by
      have : 0 < a * a := mul_self_pos.2 ha
      positivity
    have hnsq : ¬ IsSquare (a * a * b) := by
      rintro ⟨e, he⟩
      apply hsq
      have heq : e / a * (e / a) = b := by
        rw [div_mul_div_comm, ← he]
        exact mul_div_cancel_left₀ b (mul_ne_zero ha ha)
      exact ⟨e / a, heq.symm⟩
    rw [ratSqrt_eq_zero_of_not_isSquare _ habpos hnsq,
      ratSqrt_eq_zero_of_not_isSquare _ hbpos hsq, mul_zero]

/-! ## Data model (`gesture-recognizer.ts`, lines 11–43) -/

/-- Source `interface Point`. -/
structure Point where
  x : ℚ
  y : ℚ
deriving DecidableEq

/-- Source `interface Rectangle`. -/
structure Rectangle where
  x : ℚ
  y : ℚ
  width : ℚ
  height : ℚ
deriving DecidableEq

/-- Source `interface GestureTemplate`.  `vector?` is optional in the source and is
modelled by `Option`. -/
structure GestureTemplate where
  name : String
  points : List Point
  vector : Option (List ℚ)
deriving DecidableEq

/-- Source `interface RecognitionResult`, without the `time` field: `time` is the
wall-clock duration measured with `Date.now()`, an environmental effect with
no bearing on any claim. -/
structure RecognitionResult where
  name : String
  score : ℚ
deriving DecidableEq

/-- The `Math` library functions and the constant `Math.PI` used by the
source.  They are opaque library calls, so the embedding is parametrised by
them; theorems assume only properties that hold of the real functions. -/
structure Ops where
  sqrt : ℚ → ℚ
  sin : ℚ → ℚ
  cos : ℚ → ℚ
  atan : ℚ → ℚ
  atan2 : ℚ → ℚ → ℚ
  acos : ℚ → ℚ
  pi : ℚ

/-- Source `const NUM_POINTS = 64`. -/
def NUM_POINTS : Nat := 64

/-- Source `const SQUARE_SIZE = 250.0`. -/
def SQUARE_SIZE : ℚ := 250

/-- Source `const ORIGIN = {x: 0, y: 0}`. -/
def ORIGIN : Point := ⟨0, 0⟩

/-- Source `function deg2Rad` (line 375). -/
def deg2Rad (ops : Ops) (d : ℚ) : ℚ := d * ops.pi / 180

/-- Source `const DIAGONAL = Math.sqrt(SQUARE_SIZE * SQUARE_SIZE + SQUARE_SIZE * SQUARE_SIZE)`. -/
def DIAGONAL (ops : Ops) : ℚ := ops.sqrt (SQUARE_SIZE * SQUARE_SIZE + SQUARE_SIZE * SQUARE_SIZE)

/-- Source `const HALF_DIAGONAL = 0.5 * DIAGONAL`. -/
def HALF_DIAGONAL (ops : Ops) : ℚ := (1/2) * DIAGONAL ops

/-- Source `const ANGLE_RANGE = deg2Rad(45.0)`. -/
def ANGLE_RANGE (ops : Ops) : ℚ := deg2Rad ops 45

/-- Source `const ANGLE_PRECISION = deg2Rad(2.0)`. -/
def ANGLE_PRECISION (ops : Ops) : ℚ := deg2Rad ops 2

/-- Source `const PHI = 0.5 * (-1.0 + Math.sqrt(5.0))`. -/
def PHI (ops : Ops) : ℚ := (1/2) * (-1 + ops.sqrt 5)

/-! ## Geometric primitives (lines 324–372) -/

/-- Source `distance` (line 368): Euclidean distance. -/
def distance (ops : Ops) (p1 p2 : Point) : ℚ :=
  ops.sqrt ((p2.x - p1.x) * (p2.x - p1.x) + (p2.y - p1.y) * (p2.y - p1.y))

/-- Source `pathLength` (line 360): sum of consecutive distances. -/
def pathLength (ops : Ops) : List Point → ℚ
  | p1 :: p2 :: rest => distance ops p1 p2 + pathLength ops (p2 :: rest)
  | _ => 0

/-- Source `centroid` (line 324).  On the empty list the source divides `0/0`
giving `NaN`; in `ℚ` it gives `0`.  The pipeline only ever calls it on
non-empty lists. -/
def centroid (points : List Point) : Point :=
  ⟨(points.map Point.x).sum / (points.length : ℚ),
   (points.map Point.y).sum / (points.length : ℚ)⟩

/-- Source `boundingBox` (line 336).  The source folds `Math.min`/`Math.max`
starting from `±Infinity`; `ℚ` has no infinities, so the fold starts from
the first point, which gives the same result on every non-empty list (the
only lists the pipeline passes). -/
def boundingBox (points : List Point) : Rectangle :=
  match points with
  | [] => ⟨0, 0, 0, 0⟩
  | p :: ps =>
    let minX := ps.foldl (fun m q => min m q.x) p.x
    let minY := ps.foldl (fun m q => min m q.y) p.y
    let maxX := ps.foldl (fun m q => max m q.x) p.x
    let maxY := ps.foldl (fun m q => max m q.y) p.y
    ⟨minX, minY, maxX - minX, maxY - minY⟩

/-- Source `pathDistance` (line 352): mean distance between points of equal index.
The source reads `pts2[i]` for every `i < pts1.length`; both lists always
have length `NUM_POINTS` where it is called, which `zipWith` reproduces. -/
def pathDistance (ops : Ops) (pts1 pts2 : List Point) : ℚ :=
  (List.zipWith (distance ops) pts1 pts2).sum / (pts1.length : ℚ)

/-! ## Resampling (lines 192–216)

The `for` loop of `resample` walks the array `points` it was handed while
`splice`-ing every interpolated point `q` into that array at the current
index, so the iteration continues with the segment from `q` to the point
that triggered the emission.  `resampleLoop` mirrors one loop iteration:
`prev` is `points[i-1]`, the head of `rest` is `points[i]`, `done` is the
prefix `points[0..i-2]` of the (mutated) array, `dAcc` is the accumulator
`distance`, and `newPoints` is the output array.  A `splice` becomes
"continue with `prev := q`, same `rest`, `done ++ [prev]`".  The loop bound
`i < points.length` is re-read after every `splice`, so the loop need not
terminate for arbitrary `Ops`; hence the fuel.  The second component of
the result is the final contents of the caller's array.

Faithfulness note: `ℚ`'s total division (`x / 0 = 0`) is exact for every
stroke of positive path length — there the splice branch always divides
by a strictly positive `d` (established in `resampleInv_splice`), so no
division by zero is ever taken, and every theorem about this loop assumes
positive path length.  On a zero-path-length stroke the IEEE behaviour
differs: `(interval - distance) / d` is `0/0 = NaN`, the spliced point is
`(NaN, NaN)`, and the next guard is false on `NaN`, so the source loop
terminates after a single splice.  That degenerate run is modelled
exactly by `JS.resampleLoopJ` below and is evaluated in
`createTemplate_equal_points_two_point_template_cex`. -/

def resampleLoop (ops : Ops) (interval : ℚ) :
    Nat → Point → List Point → ℚ → List Point → List Point →
    Option (List Point × List Point)
  | _, prev, [], _, newPoints, done => some (newPoints, done ++ [prev])
  | 0, _, _ :: _, _, _, _ => none
  | fuel+1, prev, c :: rest, dAcc, newPoints, done =>
    let d := distance ops prev c
    if dAcc + d ≥ interval then
      let qx := prev.x + ((interval - dAcc) / d) * (c.x - prev.x)
      let qy := prev.y + ((interval - dAcc) / d) * (c.y - prev.y)
      let q : Point := ⟨qx, qy⟩
      resampleLoop ops interval fuel q (c :: rest) 0 (newPoints ++ [q]) (done ++ [prev])
    else
      resampleLoop ops interval fuel c rest (dAcc + d) newPoints (done ++ [prev])

/-- Source `resample` (line 192).  On the empty list the source builds
`newPoints = [undefined]` and the subsequent `centroid` throws a
`TypeError`; this is modelled as `none`.  After the loop, if only `n - 1`
points were emitted the source appends a copy of the last element of the
(mutated) array. -/
def resampleF (ops : Ops) (fuel : Nat) (points : List Point) (n : Nat) :
    Option (List Point × List Point) :=
  match points with
  | [] => none
  | p :: rest =>
    let interval := pathLength ops points / ((n : ℚ) - 1)
    match resampleLoop ops interval fuel p rest 0 [p] [] with
    | none => none
    | some (newPoints, ws) =>
      if newPoints.length = n - 1 then
        some (newPoints ++ [⟨(ws.getLastD ORIGIN).x, (ws.getLastD ORIGIN).y⟩], ws)
      else
        some (newPoints, ws)

/-! ## The rest of the normalization pipeline (lines 218–279) -/

/-- Source `indicativeAngle` (line 218). -/
def indicativeAngle (ops : Ops) (points : List Point) : ℚ :=
  let c := centroid points
  ops.atan2 (c.y - (points.headD ORIGIN).y) (c.x - (points.headD ORIGIN).x)

/-- Source `rotateBy` (line 223). -/
def rotateBy (ops : Ops) (points : List Point) (radians : ℚ) : List Point :=
  let c := centroid points
  let cosv := ops.cos radians
  let sinv := ops.sin radians
  points.map (fun p =>
    ⟨(p.x - c.x) * cosv - (p.y - c.y) * sinv + c.x,
     (p.x - c.x) * sinv + (p.y - c.y) * cosv + c.y⟩)

/-- Source `scaleTo` (line 238).  The source divides by the bounding-box width and
height with no guard; in JavaScript a zero extent gives `±Infinity`/`NaN`
coordinates, while in `ℚ` division by zero gives `0`.  The JavaScript
behaviour is modelled separately by `JS.scaleTo` below (claim C1). -/
def scaleTo (points : List Point) (size : ℚ) : List Point :=
  let b := boundingBox points
  points.map (fun p => ⟨p.x * (size / b.width), p.y * (size / b.height)⟩)

/-- Source `translateTo` (line 251). -/
def translateTo (points : List Point) (pt : Point) : List Point :=
  let c := centroid points
  points.map (fun p => ⟨p.x + pt.x - c.x, p.y + pt.y - c.y⟩)

/-- Source `vectorize` (line 264): interleave the coordinates and divide by the
Euclidean norm. -/
def vectorize (ops : Ops) (points : List Point) : List ℚ :=
  let vector := (points.map (fun p => [p.x, p.y])).flatten
  let sum := (points.map (fun p => p.x * p.x + p.y * p.y)).sum
  let magnitude := ops.sqrt sum
  vector.map (fun v => v / magnitude)

/-- Source `createTemplate` (line 162): the full normalization pipeline. -/
def createTemplateF (ops : Ops) (fuel : Nat) (name : String) (points : List Point) :
    Option GestureTemplate :=
  match resampleF ops fuel points NUM_POINTS with
  | none => none
  | some (pts1, _) =>
    let radians := indicativeAngle ops pts1
    let pts2 := rotateBy ops pts1 (-radians)
    let pts3 := scaleTo pts2 SQUARE_SIZE
    let pts4 := translateTo pts3 ORIGIN
    some ⟨name, pts4, some (vectorize ops pts4)⟩

/-! ## Template store operations (lines 104–160).
`this.templates` is threaded explicitly.  `loadDefaultTemplates`
(line 186) is a no-op. -/

/-- Source `addGesture` (line 104): append the new template, return how many
templates now share the name. -/
def addGestureF (ops : Ops) (fuel : Nat) (store : List GestureTemplate)
    (name : String) (points : List Point) : Option (List GestureTemplate × Nat) :=
  match createTemplateF ops fuel name points with
  | none => none
  | some t =>
    let store' := store ++ [t]
    some (store', (store'.filter (fun u => u.name == name)).length)

/-- Source `getTemplateNames` (line 123): `[...new Set(names)]` keeps the first
occurrence of each name in order, which is what `eraseDups` does. -/
def getTemplateNames (store : List GestureTemplate) : List String :=
  (store.map GestureTemplate.name).eraseDups

/-- Source `getTemplatesByName` (line 130). -/
def getTemplatesByName (store : List GestureTemplate) (name : String) :
    List GestureTemplate :=
  store.filter (fun t => t.name == name)

/-- Source `exportTemplates` (line 144): `JSON.parse(JSON.stringify(templates))`,
a deep copy.  Under the value semantics of the embedding a copy is the
same value. -/
def exportTemplates (store : List GestureTemplate) : List GestureTemplate :=
  store

/-- An entry of the array passed to `importTemplates`.  `points = none`
models a missing/`null`/non-array `points` field (all rejected by the
guard `template.points && Array.isArray(template.points)`); note that an
*empty* array is truthy in JavaScript and therefore modelled as
`some []`, which passes the guard. -/
structure ImportEntry where
  name : String
  points : Option (List Point)
deriving DecidableEq

/-- View a stored template as an import entry (what serializing and
re-reading it produces). -/
def templateToEntry (t : GestureTemplate) : ImportEntry :=
  ⟨t.name, some t.points⟩

/-- The `forEach` body of `importTemplates` (lines 155–159), folded over
the entries.  A `none` from `addGestureF` (a thrown `TypeError` or a
non-terminating resample) aborts the whole import, exactly as an exception
would. -/
def importLoop (ops : Ops) (fuel : Nat) :
    List GestureTemplate → List ImportEntry → Option (List GestureTemplate)
  | store, [] => some store
  | store, e :: rest =>
    if e.name ≠ "" ∧ e.points.isSome then
      match addGestureF ops fuel store e.name (e.points.getD []) with
      | none => none
      | some (store', _) => importLoop ops fuel store' rest
    else importLoop ops fuel store rest

/-- Source `importTemplates` (line 151): clear the store (`loadDefaultTemplates`
adds nothing), then add each entry that passes the truthiness guard.  The
result does not depend on the previous store, so it is not a parameter. -/
def importTemplatesF (ops : Ops) (fuel : Nat) (templates : List ImportEntry) :
    Option (List GestureTemplate) :=
  importLoop ops fuel [] templates

/-! ## Matchers (lines 281–322) -/

/-- The two sums `a` and `b` of `optimalCosineDistance` (lines 285–288),
taken over interleaved (x, y) pairs.  The source iterates
`i += 2` up to `v1.length`; the vectors compared always have the same
length `2 · NUM_POINTS`. -/
def optimalCosineDistanceSums : List ℚ → List ℚ → ℚ × ℚ
  | x1 :: y1 :: r1, x2 :: y2 :: r2 =>
    let s := optimalCosineDistanceSums r1 r2
    (s.1 + (x1 * x2 + y1 * y2), s.2 + (x1 * y2 - y1 * x2))
  | _, _ => (0, 0)

/-- Source `optimalCosineDistance` (line 281). -/
def optimalCosineDistance (ops : Ops) (v1 v2 : List ℚ) : ℚ :=
  let s := optimalCosineDistanceSums v1 v2
  let angle := ops.atan (s.2 / s.1)
  ops.acos (s.1 * ops.cos angle + s.2 * ops.sin angle)

/-- Source `distanceAtAngle` (line 319). -/
def distanceAtAngle (ops : Ops) (points : List Point) (template : GestureTemplate)
    (radians : ℚ) : ℚ :=
  pathDistance ops (rotateBy ops points radians) template.points

/-- The mutable locals of the golden-section search in
`distanceAtBestAngle`. -/
structure DabaState where
  a : ℚ
  b : ℚ
  x1 : ℚ
  f1 : ℚ
  x2 : ℚ
  f2 : ℚ
deriving DecidableEq

/-- The `while` loop of `distanceAtBestAngle` (lines 300–314).  The loop
runs while `|b - a| > threshold`; it need not terminate for arbitrary
`PHI`, hence the fuel. -/
def dabaLoop (ops : Ops) (points : List Point) (template : GestureTemplate)
    (threshold : ℚ) : Nat → DabaState → Option DabaState
  | 0, st => if |st.b - st.a| > threshold then none else some st
  | fuel+1, st =>
    if |st.b - st.a| > threshold then
      if st.f1 < st.f2 then
        let b' := st.x2
        let x2' := st.x1
        let f2' := st.f1
        let x1' := PHI ops * st.a + (1 - PHI ops) * b'
        let f1' := distanceAtAngle ops points template x1'
        dabaLoop ops points template threshold fuel ⟨st.a, b', x1', f1', x2', f2'⟩
      else
        let a' := st.x1
        let x1' := st.x2
        let f1' := st.f2
        let x2' := (1 - PHI ops) * a' + PHI ops * st.b
        let f2' := distanceAtAngle ops points template x2'
        dabaLoop ops points template threshold fuel ⟨a', st.b, x1', f1', x2', f2'⟩
    else some st

/-- Source `distanceAtBestAngle` (line 294). -/
def distanceAtBestAngleF (ops : Ops) (fuel : Nat) (points : List Point)
    (template : GestureTemplate) (a b threshold : ℚ) : Option ℚ :=
  let x1 := PHI ops * a + (1 - PHI ops) * b
  let f1 := distanceAtAngle ops points template x1
  let x2 := (1 - PHI ops) * a + PHI ops * b
  let f2 := distanceAtAngle ops points template x2
  match dabaLoop ops points template threshold fuel ⟨a, b, x1, f1, x2, f2⟩ with
  | none => none
  | some st => some (min st.f1 st.f2)

/-! ## Recognition (lines 55–99) -/

/-- The per-template distance choice of `recognize` (lines 69–79): the
Protractor path is taken only when `useProtractor` is set and both vectors
are present. -/
def templateDistanceF (ops : Ops) (fuel : Nat) (candidate t : GestureTemplate)
    (useProtractor : Bool) : Option ℚ :=
  match useProtractor, candidate.vector, t.vector with
  | true, some v2, some v1 => some (optimalCosineDistance ops v1 v2)
  | _, _, _ =>
    distanceAtBestAngleF ops fuel candidate.points t
      (-(ANGLE_RANGE ops)) (ANGLE_RANGE ops) (ANGLE_PRECISION ops)

/-- The `for` loop of `recognize` (lines 66–85): track the least distance
and its index.  `bestMatch = -1 / bestDistance = Infinity` is modelled by
`none`: the first computed distance always wins against `Infinity`
(`d < Infinity` holds for every rational `d`), and a later distance wins
only when strictly smaller. -/
def recognizeLoop (ops : Ops) (fuel : Nat) (candidate : GestureTemplate)
    (useProtractor : Bool) :
    Nat → Option (ℚ × Nat) → List GestureTemplate → Option (Option (ℚ × Nat))
  | _, best, [] => some best
  | i, best, t :: rest =>
    match templateDistanceF ops fuel candidate t useProtractor with
    | none => none
    | some d =>
      let best' := match best with
        | none => some (d, i)
        | some (bd, bi) => if d < bd then some (d, i) else some (bd, bi)
      recognizeLoop ops fuel candidate useProtractor (i+1) best' rest

/-- Source `recognize` (line 55).  Returns the result together with the store
(`this.templates`) as it stands after the call. -/
def recognizeF (ops : Ops) (fuel : Nat) (store : List GestureTemplate)
    (points : List Point) (useProtractor : Bool) :
    Option (RecognitionResult × List GestureTemplate) :=
  if points.length < 2 then some (⟨"No match", 0⟩, store)
  else
    match createTemplateF ops fuel "" points with
    | none => none
    | some candidate =>
      match recognizeLoop ops fuel candidate useProtractor 0 none store with
      | none => none
      | some none => some (⟨"No match", 0⟩, store)
      | some (some (bestDistance, bestMatch)) =>
        let score := if useProtractor then 1 - bestDistance
                     else 1 - bestDistance / HALF_DIAGONAL ops
        some (⟨(store.getD bestMatch ⟨"No match", [], none⟩).name, max 0 score⟩, store)

namespace JS

/-! ## A JavaScript-number model with non-finite values

`ℚ` makes division by zero `0`, while the source, run on IEEE doubles,
produces `±Infinity`/`NaN` in `scaleTo` when a bounding-box extent is `0`.
To settle claim C1 faithfully, the pipeline is repeated here over `JSNum`:
exact rational arithmetic for finite values plus `inf`, `ninf` and `nan`
with JavaScript's propagation rules for `+ - * /`, comparisons (false on
`NaN`) and `Math.min`/`Math.max` (`NaN`-propagating).  Negative zero is
not modelled; no evaluated run below distinguishes `0` from `-0`. -/

inductive JSNum where
  | num : ℚ → JSNum
  | inf : JSNum
  | ninf : JSNum
  | nan : JSNum
deriving DecidableEq

namespace JSNum

def jadd : JSNum → JSNum → JSNum
  | num a, num b => num (a + b)
  | nan, _ => nan
  | _, nan => nan
  | inf, ninf => nan
  | ninf, inf => nan
  | inf, _ => inf
  | _, inf => inf
  | ninf, _ => ninf
  | _, ninf => ninf

def jneg : JSNum → JSNum
  | num a => num (-a)
  | inf => ninf
  | ninf => inf
  | nan => nan

def jsub (a b : JSNum) : JSNum := jadd a (jneg b)

def jmul : JSNum → JSNum → JSNum
  | num a, num b => num (a * b)
  | nan, _ => nan
  | _, nan => nan
  | inf, inf => inf
  | inf, ninf => ninf
  | ninf, inf => ninf
  | ninf, ninf => inf
  | inf, num b => if b = 0 then nan else if 0 < b then inf else ninf
  | num a, inf => if a = 0 then nan else if 0 < a then inf else ninf
  | ninf, num b => if b = 0 then nan else if 0 < b then ninf else inf
  | num a, ninf => if a = 0 then nan else if 0 < a then ninf else inf

def jdiv : JSNum → JSNum → JSNum
  | num a, num b =>
    if b = 0 then (if a = 0 then nan else if 0 < a then inf else ninf)
    else num (a / b)
  | nan, _ => nan
  | _, nan => nan
  | num _, inf => num 0
  | num _, ninf => num 0
  | inf, num b => if 0 ≤ b then inf else ninf
  | ninf, num b => if 0 ≤ b then ninf else inf
  | inf, _ => nan
  | ninf, _ => nan

/-- JavaScript `>=`: false whenever `NaN` is involved. -/
def jge : JSNum → JSNum → Bool
  | nan, _ => false
  | _, nan => false
  | num a, num b => decide (b ≤ a)
  | inf, _ => true
  | _, inf => false
  | _, ninf => true
  | ninf, _ => false

/-- Source `Math.min`: `NaN`-propagating. -/
def jmin : JSNum → JSNum → JSNum
  | nan, _ => nan
  | _, nan => nan
  | num a, num b => if a ≤ b then num a else num b
  | ninf, _ => ninf
  | _, ninf => ninf
  | inf, b => b
  | a, inf => a

/-- Source `Math.max`: `NaN`-propagating. -/
def jmax : JSNum → JSNum → JSNum
  | nan, _ => nan
  | _, nan => nan
  | num a, num b => if a ≤ b then num b else num a
  | inf, _ => inf
  | _, inf => inf
  | ninf, b => b
  | a, ninf => a

end JSNum

open JSNum

structure JSPoint where
  x : JSNum
  y : JSNum
deriving DecidableEq

structure JSTemplate where
  name : String
  points : List JSPoint
  vector : Option (List JSNum)
deriving DecidableEq

/-- The `Math` functions used by `createTemplate`, over `JSNum`. -/
structure JSOps where
  sqrt : JSNum → JSNum
  sin : JSNum → JSNum
  cos : JSNum → JSNum
  atan2 : JSNum → JSNum → JSNum

/-- Source `distance` over `JSNum`. -/
def distanceJ (ops : JSOps) (p1 p2 : JSPoint) : JSNum :=
  ops.sqrt (jadd (jmul (jsub p2.x p1.x) (jsub p2.x p1.x))
                 (jmul (jsub p2.y p1.y) (jsub p2.y p1.y)))

/-- Source `pathLength` over `JSNum`. -/
def pathLengthJ (ops : JSOps) : List JSPoint → JSNum
  | p1 :: p2 :: rest => jadd (distanceJ ops p1 p2) (pathLengthJ ops (p2 :: rest))
  | _ => num 0

/-- The `resample` loop over `JSNum`; same shape as `resampleLoop`. -/
def resampleLoopJ (ops : JSOps) (interval : JSNum) :
    Nat → JSPoint → List JSPoint → JSNum → List JSPoint → List JSPoint →
    Option (List JSPoint × List JSPoint)
  | _, prev, [], _, newPoints, done => some (newPoints, done ++ [prev])
  | 0, _, _ :: _, _, _, _ => none
  | fuel+1, prev, c :: rest, dAcc, newPoints, done =>
    let d := distanceJ ops prev c
    if jge (jadd dAcc d) interval then
      let t := jdiv (jsub interval dAcc) d
      let q : JSPoint := ⟨jadd prev.x (jmul t (jsub c.x prev.x)),
                          jadd prev.y (jmul t (jsub c.y prev.y))⟩
      resampleLoopJ ops interval fuel q (c :: rest) (num 0) (newPoints ++ [q]) (done ++ [prev])
    else
      resampleLoopJ ops interval fuel c rest (jadd dAcc d) newPoints (done ++ [prev])

/-- Source `resample` over `JSNum`. -/
def resampleJ (ops : JSOps) (fuel : Nat) (points : List JSPoint) (n : Nat) :
    Option (List JSPoint × List JSPoint) :=
  match points with
  | [] => none
  | p :: rest =>
    let interval := jdiv (pathLengthJ ops points) (num ((n : ℚ) - 1))
    match resampleLoopJ ops interval fuel p rest (num 0) [p] [] with
    | none => none
    | some (newPoints, ws) =>
      if newPoints.length = n - 1 then
        some (newPoints ++ [⟨(ws.getLastD ⟨num 0, num 0⟩).x, (ws.getLastD ⟨num 0, num 0⟩).y⟩], ws)
      else
        some (newPoints, ws)

/-- Source `centroid` over `JSNum`. -/
def centroidJ (points : List JSPoint) : JSPoint :=
  ⟨jdiv (points.foldl (fun s p => jadd s p.x) (num 0)) (num (points.length : ℚ)),
   jdiv (points.foldl (fun s p => jadd s p.y) (num 0)) (num (points.length : ℚ))⟩

/-- Source `indicativeAngle` over `JSNum`. -/
def indicativeAngleJ (ops : JSOps) (points : List JSPoint) : JSNum :=
  let c := centroidJ points
  let p0 := points.headD ⟨num 0, num 0⟩
  ops.atan2 (jsub c.y p0.y) (jsub c.x p0.x)

/-- Source `rotateBy` over `JSNum`. -/
def rotateByJ (ops : JSOps) (points : List JSPoint) (radians : JSNum) : List JSPoint :=
  let c := centroidJ points
  let cosv := ops.cos radians
  let sinv := ops.sin radians
  points.map (fun p =>
    ⟨jadd (jsub (jmul (jsub p.x c.x) cosv) (jmul (jsub p.y c.y) sinv)) c.x,
     jadd (jadd (jmul (jsub p.x c.x) sinv) (jmul (jsub p.y c.y) cosv)) c.y⟩)

/-- Source `boundingBox` over `JSNum`: exactly the source's fold of
`Math.min`/`Math.max` starting from `±Infinity`. -/
def boundingBoxJ (points : List JSPoint) : JSNum × JSNum × JSNum × JSNum :=
  let minX := points.foldl (fun m p => jmin m p.x) inf
  let minY := points.foldl (fun m p => jmin m p.y) inf
  let maxX := points.foldl (fun m p => jmax m p.x) ninf
  let maxY := points.foldl (fun m p => jmax m p.y) ninf
  (minX, minY, jsub maxX minX, jsub maxY minY)

/-- Source `scaleTo` over `JSNum`: the unguarded divisions
`size / boundingBox.width` and `size / boundingBox.height` (lines
243–244). -/
def scaleToJ (points : List JSPoint) (size : JSNum) : List JSPoint :=
  let b := boundingBoxJ points
  points.map (fun p => ⟨jmul p.x (jdiv size b.2.2.1), jmul p.y (jdiv size b.2.2.2)⟩)

/-- Source `translateTo` over `JSNum`. -/
def translateToJ (points : List JSPoint) (pt : JSPoint) : List JSPoint :=
  let c := centroidJ points
  points.map (fun p => ⟨jsub (jadd p.x pt.x) c.x, jsub (jadd p.y pt.y) c.y⟩)

/-- Source `vectorize` over `JSNum`. -/
def vectorizeJ (ops : JSOps) (points : List JSPoint) : List JSNum :=
  let vector := (points.map (fun p => [p.x, p.y])).flatten
  let sum := points.foldl (fun s p => jadd s (jadd (jmul p.x p.x) (jmul p.y p.y))) (num 0)
  let magnitude := ops.sqrt sum
  vector.map (fun v => jdiv v magnitude)

/-- Source `createTemplate` over `JSNum`. -/
def createTemplateJ (ops : JSOps) (fuel : Nat) (name : String)
    (points : List JSPoint) : Option JSTemplate :=
  match resampleJ ops fuel points NUM_POINTS with
  | none => none
  | some (pts1, _) =>
    let radians := indicativeAngleJ ops pts1
    let pts2 := rotateByJ ops pts1 (jneg radians)
    let pts3 := scaleToJ pts2 (num SQUARE_SIZE)
    let pts4 := translateToJ pts3 ⟨num 0, num 0⟩
    some ⟨name, pts4, some (vectorizeJ ops pts4)⟩

end JS

/-! ## Concrete instantiations of the `Math` parameters

Witnesses need computable `Ops`/`JSOps` values.  Any instantiation is
admissible as long as it satisfies the explicitly assumed facts (which are
true of the real `Math` functions); where a concrete run is evaluated, the
stand-ins below agree with the real functions at every argument actually
reached (exact square roots of perfect squares, `sin 0 = 0`, `cos 0 = 1`,
`atan2(0, x) = 0` for `x > 0`). -/

/-- Witness instantiation of `Ops`: `ratSqrt` for `Math.sqrt` (exact on
perfect rational squares), constant stand-ins for the trigonometric
functions and `Math.PI = 0` (no theorem below assumes anything about
them beyond what `ratSqrt` provides). -/
def opsW : Ops :=
  ⟨ratSqrt, fun _ => 0, fun _ => 1, fun _ => 0, fun _ _ => 0, fun _ => 0, 0⟩

/-- Stand-in for `Math.sqrt` over `JSNum`: `NaN` on negative/`NaN` input, `Infinity` on
`Infinity`, and `ratSqrt` on nonnegative rationals (exact on the perfect
squares arising in the evaluated run). -/
def jsqrtW : JS.JSNum → JS.JSNum
  | .num q => if q < 0 then .nan else .num (ratSqrt q)
  | .inf => .inf
  | .ninf => .nan
  | .nan => .nan

/-- Stand-in for `Math.sin`: correct at `0`, `NaN` elsewhere (so any call at an
unintended argument would poison the evaluated run and fail the check). -/
def jsinW (x : JS.JSNum) : JS.JSNum :=
  if x = .num 0 then .num 0 else .nan

/-- Stand-in for `Math.cos`: correct at `0`, `NaN` elsewhere. -/
def jcosW (x : JS.JSNum) : JS.JSNum :=
  if x = .num 0 then .num 1 else .nan

/-- Stand-in for `Math.atan2`: correct on `(0, x)` with `x > 0`, `NaN`
elsewhere. -/
def jatan2W (y x : JS.JSNum) : JS.JSNum :=
  match y, x with
  | .num 0, .num a => if 0 < a then .num 0 else .nan
  | _, _ => .nan

/-- Witness instantiation of `JSOps`. -/
def jopsW : JS.JSOps := ⟨jsqrtW, jsinW, jcosW, jatan2W⟩

/-! ## Properties of `resample`

The facts assumed about `Math.sqrt` throughout: it is nonnegative on
nonnegative arguments (`SqrtNonneg`) and pulls perfect squares out of
products (`SqrtSqMul`); both hold of the real square root and of the
witness instantiation `ratSqrt`. -/

/-- Assumed fact: `Math.sqrt` is nonnegative on nonnegative arguments. -/
def SqrtNonneg (ops : Ops) : Prop := ∀ q : ℚ, 0 ≤ q → 0 ≤ ops.sqrt q

/-- Assumed fact: `Math.sqrt (a² · b) = |a| · Math.sqrt b` for `b ≥ 0`. -/
def SqrtSqMul (ops : Ops) : Prop :=
  ∀ a b : ℚ, 0 ≤ b → ops.sqrt (a * a * b) = |a| * ops.sqrt b

theorem opsW_sqrtNonneg : SqrtNonneg opsW := fun q _ => ratSqrt_nonneg q

theorem opsW_sqrtSqMul : SqrtSqMul opsW := fun a b hb => ratSqrt_sq_mul a b hb

theorem distance_nonneg (ops : Ops) (h1 : SqrtNonneg ops) (p q : Point) :
    0 ≤ distance ops p q :=
  h1 _ (add_nonneg (mul_self_nonneg _) (mul_self_nonneg _))

theorem pathLength_nonneg (ops : Ops) (h1 : SqrtNonneg ops) :
    ∀ l : List Point, 0 ≤ pathLength ops l
  | [] => by simp [pathLength]
  | [_] => by simp [pathLength]
  | p :: c :: r => by
    have ha := pathLength_nonneg ops h1 (c :: r)
    have hb := distance_nonneg ops h1 p c
    simp only [pathLength]
    linarith

/-- Distance from an interpolated point at parameter `t` on the segment
`p → c` to the endpoint `c`. -/
theorem distance_lerp_right (ops : Ops) (h2 : SqrtSqMul ops) (p c q : Point)
    (t : ℚ) (ht : t ≤ 1)
    (hqx : q.x = p.x + t * (c.x - p.x)) (hqy : q.y = p.y + t * (c.y - p.y)) :
    distance ops q c = (1 - t) * distance ops p c := by
  unfold distance
  rw [hqx, hqy]
  have h1 : (c.x - (p.x + t * (c.x - p.x))) * (c.x - (p.x + t * (c.x - p.x))) +
      (c.y - (p.y + t * (c.y - p.y))) * (c.y - (p.y + t * (c.y - p.y)))
      = (1 - t) * (1 - t) * ((c.x - p.x) * (c.x - p.x) + (c.y - p.y) * (c.y - p.y)) := by
    ring
  rw [h1, h2 _ _ (add_nonneg (mul_self_nonneg _) (mul_self_nonneg _)),
    abs_of_nonneg (by linarith : (0:ℚ) ≤ 1 - t)]

/-- The loop invariant of `resampleLoop`, relative to the original stroke
`pts`, the target emission count `N` (`= n - 1 = 63`) and the emission
interval `I`:

* the accumulator is in `[0, I)`;
* arc-length budget: emitted-so-far · I + accumulator + remaining arc
  equals the total `N · I`;
* `newPoints` is non-empty (it starts as `[points[0]]`);
* the original stroke is a sublist of the current contents
  `done ++ prev :: rest` of the caller's array. -/
def ResampleInv (ops : Ops) (pts : List Point) (N : Nat) (I : ℚ) (prev : Point)
    (rest : List Point) (dAcc : ℚ) (newPoints done : List Point) : Prop :=
  0 ≤ dAcc ∧ dAcc < I ∧
  ((newPoints.length : ℚ) - 1) * I + dAcc + pathLength ops (prev :: rest) = (N : ℚ) * I ∧
  1 ≤ newPoints.length ∧
  pts.Sublist (done ++ prev :: rest)

/-- Emission count bound: the invariant forces
`newPoints.length ≤ N + 1`. -/
theorem resampleInv_le (ops : Ops) (h1 : SqrtNonneg ops) {pts : List Point}
    {N : Nat} {I : ℚ} (hI : 0 < I) {prev : Point} {rest : List Point}
    {dAcc : ℚ} {newPoints done : List Point}
    (hinv : ResampleInv ops pts N I prev rest dAcc newPoints done) :
    newPoints.length ≤ N + 1 := by
  obtain ⟨h0, _, hb, _, _⟩ := hinv
  have hrem := pathLength_nonneg ops h1 (prev :: rest)
  have : ((newPoints.length : ℚ) - 1) * I ≤ (N : ℚ) * I := by linarith
  have hle : ((newPoints.length : ℚ) - 1) ≤ (N : ℚ) :=
    le_of_mul_le_mul_right this hI
  have : (newPoints.length : ℚ) ≤ (N : ℚ) + 1 := by linarith
  exact_mod_cast this

/-- Invariant preservation across a non-splicing iteration. -/
theorem resampleInv_skip (ops : Ops) (h1 : SqrtNonneg ops) {pts : List Point}
    {N : Nat} {I : ℚ} {prev c : Point} {rest : List Point}
    {dAcc : ℚ} {newPoints done : List Point}
    (hinv : ResampleInv ops pts N I prev (c :: rest) dAcc newPoints done)
    (hg : ¬ I ≤ dAcc + distance ops prev c) :
    ResampleInv ops pts N I c rest (dAcc + distance ops prev c) newPoints (done ++ [prev]) := by
  obtain ⟨h0, hlt, hb, hne, hsub⟩ := hinv
  push_neg at hg
  refine ⟨add_nonneg h0 (distance_nonneg ops h1 prev c), hg, ?_, hne, ?_⟩
  · have : pathLength ops (prev :: c :: rest)
        = distance ops prev c + pathLength ops (c :: rest) := by
      simp [pathLength]
    rw [this] at hb
    linarith
  · simpa [List.append_assoc] using hsub

/-- Invariant preservation across a splicing iteration: `q` is the
interpolated point and is inserted into the caller's array. -/
theorem resampleInv_splice (ops : Ops) (h1 : SqrtNonneg ops) (h2 : SqrtSqMul ops)
    {pts : List Point} {N : Nat} {I : ℚ} (hI : 0 < I) {prev c : Point}
    {rest : List Point} {dAcc : ℚ} {newPoints done : List Point}
    (hinv : ResampleInv ops pts N I prev (c :: rest) dAcc newPoints done)
    (hg : I ≤ dAcc + distance ops prev c) (q : Point)
    (hqx : q.x = prev.x + ((I - dAcc) / distance ops prev c) * (c.x - prev.x))
    (hqy : q.y = prev.y + ((I - dAcc) / distance ops prev c) * (c.y - prev.y)) :
    ResampleInv ops pts N I q (c :: rest) 0 (newPoints ++ [q]) (done ++ [prev]) := by
  obtain ⟨h0, hlt, hb, hne, hsub⟩ := hinv
  have hd : 0 < distance ops prev c := by
    by_contra hdle
    push_neg at hdle
    have := distance_nonneg ops h1 prev c
    have : distance ops prev c = 0 := le_antisymm hdle this
    rw [this] at hg
    linarith
  have ht1 : (I - dAcc) / distance ops prev c ≤ 1 :=
    (div_le_one hd).2 (by linarith)
  have hqc : distance ops q c
      = (1 - (I - dAcc) / distance ops prev c) * distance ops prev c :=
    distance_lerp_right ops h2 prev c q _ ht1 hqx hqy
  have htd : ((I - dAcc) / distance ops prev c) * distance ops prev c = I - dAcc :=
    div_mul_cancel₀ _ (ne_of_gt hd)
  refine ⟨le_refl 0, hI, ?_, ?_, ?_⟩
  · have hpl : pathLength ops (prev :: c :: rest)
        = distance ops prev c + pathLength ops (c :: rest) := by
      simp [pathLength]
    have hpl' : pathLength ops (q :: c :: rest)
        = distance ops q c + pathLength ops (c :: rest) := by
      simp [pathLength]
    have hexp : (1 - (I - dAcc) / distance ops prev c) * distance ops prev c
        = distance ops prev c - (I - dAcc) := by
      rw [sub_mul, one_mul, htd]
    rw [hpl] at hb
    rw [hpl', hqc, hexp]
    push_cast [List.length_append, List.length_singleton]
    linarith
  · simp
  · have hstep : (done ++ prev :: c :: rest).Sublist (done ++ prev :: q :: c :: rest) :=
      List.Sublist.append_left
        (List.Sublist.cons₂ prev (List.sublist_cons_self q (c :: rest))) done
    have : pts.Sublist (done ++ prev :: q :: c :: rest) := hsub.trans hstep
    simpa [List.append_assoc] using this

/-- Partial correctness of the resample loop: whatever fuel it is given,
if it completes it has emitted exactly `N + 1` points, and the caller's
array has grown by one point per emission beyond the first and still
contains the original stroke as a sublist. -/
theorem resampleLoop_sound (ops : Ops) (h1 : SqrtNonneg ops) (h2 : SqrtSqMul ops)
    (pts : List Point) (N : Nat) (I : ℚ) (hI : 0 < I) :
    ∀ (fuel : Nat) (prev : Point) (rest : List Point) (dAcc : ℚ)
      (newPoints done np ws : List Point),
      ResampleInv ops pts N I prev rest dAcc newPoints done →
      resampleLoop ops I fuel prev rest dAcc newPoints done = some (np, ws) →
      np.length = N + 1 ∧
      ws.length + newPoints.length = done.length + 1 + rest.length + np.length ∧
      pts.Sublist ws := by
  have exit_case : ∀ (prev : Point) (dAcc : ℚ) (newPoints done : List Point),
      ResampleInv ops pts N I prev [] dAcc newPoints done →
      newPoints.length = N + 1 ∧
      (done ++ [prev]).length + newPoints.length
        = done.length + 1 + ([] : List Point).length + newPoints.length ∧
      pts.Sublist (done ++ [prev]) := by
    intro prev dAcc newPoints done hinv
    obtain ⟨hd0, hdlt, hb, hne, hsub⟩ := hinv
    have hpl : pathLength ops [prev] = 0 := by simp [pathLength]
    rw [hpl] at hb
    have hle : ((newPoints.length : ℚ) - 1) ≤ (N : ℚ) :=
      le_of_mul_le_mul_right (by linarith) hI
    have hlt : (N : ℚ) * I < (newPoints.length : ℚ) * I := by nlinarith
    have hltn : (N : ℚ) < (newPoints.length : ℚ) := lt_of_mul_lt_mul_right hlt (le_of_lt hI)
    have hA : newPoints.length ≤ N + 1 := by
      have : (newPoints.length : ℚ) ≤ (N : ℚ) + 1 := by linarith
      exact_mod_cast this
    have hB : N < newPoints.length := by exact_mod_cast hltn
    refine ⟨by omega, by simp, hsub⟩
  intro fuel
  induction fuel with
  | zero =>
    intro prev rest dAcc newPoints done np ws hinv hrun
    cases rest with
    | nil =>
      simp only [resampleLoop, Option.some.injEq, Prod.mk.injEq] at hrun
      obtain ⟨hnp, hws⟩ := hrun
      subst hnp
      subst hws
      exact exit_case prev dAcc newPoints done hinv
    | cons c rest' => simp [resampleLoop] at hrun
  | succ fuel ih =>
    intro prev rest dAcc newPoints done np ws hinv hrun
    cases rest with
    | nil =>
      simp only [resampleLoop, Option.some.injEq, Prod.mk.injEq] at hrun
      obtain ⟨hnp, hws⟩ := hrun
      subst hnp
      subst hws
      exact exit_case prev dAcc newPoints done hinv
    | cons c rest' =>
      simp only [resampleLoop] at hrun
      split at hrun
      · rename_i hg
        have hinv' := resampleInv_splice ops h1 h2 hI hinv hg ⟨_, _⟩ rfl rfl
        have := ih _ _ _ _ _ np ws hinv' hrun
        obtain ⟨ha, hb', hc⟩ := this
        refine ⟨ha, ?_, hc⟩
        simp only [List.length_append, List.length_cons, List.length_singleton,
          List.length_nil] at hb' ⊢
        omega
      · rename_i hg
        have hinv' := resampleInv_skip ops h1 hinv hg
        have := ih _ _ _ _ _ np ws hinv' hrun
        obtain ⟨ha, hb', hc⟩ := this
        refine ⟨ha, ?_, hc⟩
        simp only [List.length_append, List.length_cons, List.length_singleton,
          List.length_nil] at hb' ⊢
        omega

/-- Termination of the resample loop: fuel
`rest.length · (N + 2) + (N + 2)` beyond the points already emitted
suffices. -/
theorem resampleLoop_terminates (ops : Ops) (h1 : SqrtNonneg ops) (h2 : SqrtSqMul ops)
    (pts : List Point) (N : Nat) (I : ℚ) (hI : 0 < I) :
    ∀ (fuel : Nat) (prev : Point) (rest : List Point) (dAcc : ℚ)
      (newPoints done : List Point),
      ResampleInv ops pts N I prev rest dAcc newPoints done →
      rest.length * (N + 2) + (N + 2) ≤ fuel + newPoints.length →
      ∃ np ws, resampleLoop ops I fuel prev rest dAcc newPoints done = some (np, ws) := by
  intro fuel
  induction fuel with
  | zero =>
    intro prev rest dAcc newPoints done hinv hfuel
    cases rest with
    | nil => exact ⟨newPoints, done ++ [prev], by simp [resampleLoop]⟩
    | cons c rest' =>
      exfalso
      have hbound := resampleInv_le ops h1 hI hinv
      have hone : 1 * (N + 2) ≤ (c :: rest').length * (N + 2) :=
        Nat.mul_le_mul_right _ (by simp)
      simp only [List.length_cons] at hone hfuel
      omega
  | succ fuel ih =>
    intro prev rest dAcc newPoints done hinv hfuel
    cases rest with
    | nil => exact ⟨newPoints, done ++ [prev], by simp [resampleLoop]⟩
    | cons c rest' =>
      have hm : (rest'.length + 1) * (N + 2) = rest'.length * (N + 2) + (N + 2) := by
        ring
      simp only [resampleLoop]
      split
      · rename_i hg
        have hinv' := resampleInv_splice ops h1 h2 hI hinv hg ⟨_, _⟩ rfl rfl
        refine ih _ _ _ _ _ hinv' ?_
        simp only [List.length_cons, List.length_append, List.length_singleton,
          List.length_nil] at hfuel ⊢
        omega
      · rename_i hg
        have hinv' := resampleInv_skip ops h1 hinv hg
        refine ih _ _ _ _ _ hinv' ?_
        simp only [List.length_cons, List.length_append, List.length_singleton,
          List.length_nil] at hfuel ⊢
        rw [hm] at hfuel
        omega

/-- The initial state of the loop, as set up by `resample`, satisfies the
invariant. -/
theorem resampleInv_init (ops : Ops) (p : Point) (rest : List Point)
    (hL : 0 < pathLength ops (p :: rest)) :
    ResampleInv ops (p :: rest) 63 (pathLength ops (p :: rest) / 63) p rest 0 [p] [] := by
  have hI : 0 < pathLength ops (p :: rest) / 63 := by positivity
  refine ⟨le_refl 0, hI, ?_, by simp, by simp⟩
  have : (63 : ℚ) * (pathLength ops (p :: rest) / 63) = pathLength ops (p :: rest) := by
    field_simp
  simp only [List.length_singleton]
  push_cast
  linarith [this]

/-- Partial correctness of `resample` for a non-degenerate stroke: any
completed run emits exactly 64 points, and leaves the caller's array
holding the original stroke as a sublist with 63 extra interpolated
points. -/
theorem resampleF_sound (ops : Ops) (h1 : SqrtNonneg ops) (h2 : SqrtSqMul ops)
    (pts : List Point) (hlen : 2 ≤ pts.length) (hL : 0 < pathLength ops pts) :
    ∀ fuel np ws, resampleF ops fuel pts NUM_POINTS = some (np, ws) →
      np.length = 64 ∧ ws.length = pts.length + 63 ∧ pts.Sublist ws := by
  intro fuel np ws hrun
  cases pts with
  | nil => simp at hlen
  | cons p rest =>
    have hI : 0 < pathLength ops (p :: rest) / 63 := by positivity
    simp only [resampleF, NUM_POINTS] at hrun
    have h63 : ((64 : Nat) : ℚ) - 1 = 63 := by norm_num
    rw [h63] at hrun
    split at hrun
    · exact absurd hrun (by simp)
    · rename_i np₀ ws₀ hloop
      have hsound := resampleLoop_sound ops h1 h2 (p :: rest) 63 _ hI fuel p rest 0 [p] []
        np₀ ws₀ (resampleInv_init ops p rest hL) hloop
      obtain ⟨hcount, hlen', hsub⟩ := hsound
      rw [if_neg (by omega)] at hrun
      simp only [Option.some.injEq, Prod.mk.injEq] at hrun
      obtain ⟨hnp, hws⟩ := hrun
      subst hnp
      subst hws
      simp only [List.length_singleton, List.length_nil, List.length_cons] at hlen' hcount ⊢
      refine ⟨hcount, by omega, hsub⟩

/-- Termination of `resample` for a non-degenerate stroke. -/
theorem resampleF_terminates (ops : Ops) (h1 : SqrtNonneg ops) (h2 : SqrtSqMul ops)
    (pts : List Point) (hlen : 2 ≤ pts.length) (hL : 0 < pathLength ops pts) :
    ∃ fuel np ws, resampleF ops fuel pts NUM_POINTS = some (np, ws) := by
  cases pts with
  | nil => simp at hlen
  | cons p rest =>
    have hI : 0 < pathLength ops (p :: rest) / 63 := by positivity
    obtain ⟨np₀, ws₀, hloop⟩ := resampleLoop_terminates ops h1 h2 (p :: rest) 63 _ hI
      (rest.length * 65 + 65) p rest 0 [p] [] (resampleInv_init ops p rest hL)
      (by simp only [List.length_singleton]; omega)
    obtain ⟨hcount, _, _⟩ := resampleLoop_sound ops h1 h2 (p :: rest) 63 _ hI
      (rest.length * 65 + 65) p rest 0 [p] [] np₀ ws₀ (resampleInv_init ops p rest hL) hloop
    refine ⟨rest.length * 65 + 65, np₀, ws₀, ?_⟩
    simp only [resampleF, NUM_POINTS]
    have h63 : ((64 : Nat) : ℚ) - 1 = 63 := by norm_num
    rw [h63]
    simp only [hloop]
    rw [if_neg (by omega)]

/-- Partial correctness of `createTemplate`: a completed run yields a
template with exactly 64 points and the requested name. -/
theorem createTemplateF_sound (ops : Ops) (h1 : SqrtNonneg ops) (h2 : SqrtSqMul ops)
    (pts : List Point) (hlen : 2 ≤ pts.length) (hL : 0 < pathLength ops pts) :
    ∀ fuel name tpl, createTemplateF ops fuel name pts = some tpl →
      tpl.points.length = 64 ∧ tpl.name = name := by
  intro fuel name tpl hrun
  simp only [createTemplateF] at hrun
  split at hrun
  · exact absurd hrun (by simp)
  · rename_i pts1 ws hres
    obtain ⟨hcount, _, _⟩ := resampleF_sound ops h1 h2 pts hlen hL fuel pts1 ws hres
    rw [Option.some.injEq] at hrun
    subst hrun
    simp [translateTo, scaleTo, rotateBy, hcount]

/-- Termination of `createTemplate` on a non-degenerate stroke. -/
theorem createTemplateF_terminates (ops : Ops) (h1 : SqrtNonneg ops) (h2 : SqrtSqMul ops)
    (pts : List Point) (hlen : 2 ≤ pts.length) (hL : 0 < pathLength ops pts) :
    ∀ name, ∃ fuel tpl, createTemplateF ops fuel name pts = some tpl := by
  intro name
  obtain ⟨fuel, np, ws, hres⟩ := resampleF_terminates ops h1 h2 pts hlen hL
  have h : (createTemplateF ops fuel name pts).isSome := by
    simp only [createTemplateF, hres, Option.isSome_some]
  obtain ⟨tpl, htpl⟩ := Option.isSome_iff_exists.mp h
  exact ⟨fuel, tpl, htpl⟩

/-! ### Fuel monotonicity -/

theorem resampleLoop_mono (ops : Ops) (I : ℚ) :
    ∀ (fuel fuel' : Nat) (prev : Point) (rest : List Point) (dAcc : ℚ)
      (newPoints done : List Point) (r : List Point × List Point),
      fuel ≤ fuel' →
      resampleLoop ops I fuel prev rest dAcc newPoints done = some r →
      resampleLoop ops I fuel' prev rest dAcc newPoints done = some r := by
  intro fuel
  induction fuel with
  | zero =>
    intro fuel' prev rest dAcc newPoints done r _ hrun
    cases rest with
    | nil => simpa [resampleLoop] using hrun
    | cons c rest' => simp [resampleLoop] at hrun
  | succ fuel ih =>
    intro fuel' prev rest dAcc newPoints done r hle hrun
    cases rest with
    | nil => simpa [resampleLoop] using hrun
    | cons c rest' =>
      cases fuel' with
      | zero => omega
      | succ f' =>
        simp only [resampleLoop] at hrun ⊢
        split at hrun <;> rename_i hg
        · rw [if_pos hg]
          exact ih f' _ _ _ _ _ _ (by omega) hrun
        · rw [if_neg hg]
          exact ih f' _ _ _ _ _ _ (by omega) hrun

theorem resampleF_mono (ops : Ops) (pts : List Point) (n : Nat) :
    ∀ (fuel fuel' : Nat) (r : List Point × List Point), fuel ≤ fuel' →
      resampleF ops fuel pts n = some r → resampleF ops fuel' pts n = some r := by
  intro fuel fuel' r hle hrun
  cases pts with
  | nil => simp [resampleF] at hrun
  | cons p rest =>
    simp only [resampleF] at hrun ⊢
    split at hrun
    · exact absurd hrun (by simp)
    · rename_i np₀ ws₀ hloop
      simp only [resampleLoop_mono ops _ fuel fuel' _ _ _ _ _ _ hle hloop]
      exact hrun

theorem createTemplateF_mono (ops : Ops) (pts : List Point) (name : String) :
    ∀ (fuel fuel' : Nat) (tpl : GestureTemplate), fuel ≤ fuel' →
      createTemplateF ops fuel name pts = some tpl →
      createTemplateF ops fuel' name pts = some tpl := by
  intro fuel fuel' tpl hle hrun
  simp only [createTemplateF] at hrun ⊢
  split at hrun
  · exact absurd hrun (by simp)
  · rename_i pts1 ws hres
    simp only [resampleF_mono ops pts NUM_POINTS fuel fuel' _ hle hres]
    exact hrun

theorem addGestureF_mono (ops : Ops) (store : List GestureTemplate)
    (name : String) (pts : List Point) :
    ∀ (fuel fuel' : Nat) (r : List GestureTemplate × Nat), fuel ≤ fuel' →
      addGestureF ops fuel store name pts = some r →
      addGestureF ops fuel' store name pts = some r := by
  intro fuel fuel' r hle hrun
  simp only [addGestureF] at hrun ⊢
  split at hrun
  · exact absurd hrun (by simp)
  · rename_i tpl hres
    simp only [createTemplateF_mono ops pts name fuel fuel' tpl hle hres]
    exact hrun

/-! ### Import -/

theorem importLoop_mono (ops : Ops) :
    ∀ (es : List ImportEntry) (fuel fuel' : Nat) (acc store' : List GestureTemplate),
      fuel ≤ fuel' → importLoop ops fuel acc es = some store' →
      importLoop ops fuel' acc es = some store' := by
  intro es
  induction es with
  | nil =>
    intro fuel fuel' acc store' _ hrun
    simpa [importLoop] using hrun
  | cons e rest ih =>
    intro fuel fuel' acc store' hle hrun
    simp only [importLoop] at hrun ⊢
    by_cases hg : e.name ≠ "" ∧ e.points.isSome
    · rw [if_pos hg] at hrun ⊢
      split at hrun
      · exact absurd hrun (by simp)
      · rename_i store₂ cnt heq
        simp only [addGestureF_mono ops acc e.name _ fuel fuel' (store₂, cnt) hle heq]
        exact ih fuel fuel' store₂ store' hle hrun
    · rw [if_neg hg] at hrun ⊢
      exact ih fuel fuel' acc store' hle hrun

/-- Replaying a list of stored templates through the import loop succeeds
(given enough fuel) and appends, in order, one template per entry with the
same name. -/
theorem importLoop_names (ops : Ops) (h1 : SqrtNonneg ops) (h2 : SqrtSqMul ops) :
    ∀ (ts : List GestureTemplate) (acc : List GestureTemplate),
      (∀ t ∈ ts, t.name ≠ "" ∧ 2 ≤ t.points.length ∧ 0 < pathLength ops t.points) →
      ∃ fuel store', importLoop ops fuel acc (ts.map templateToEntry) = some store' ∧
        store'.map GestureTemplate.name
          = acc.map GestureTemplate.name ++ ts.map GestureTemplate.name := by
  intro ts
  induction ts with
  | nil =>
    intro acc _
    exact ⟨0, acc, by simp [importLoop], by simp⟩
  | cons t ts ih =>
    intro acc hts
    obtain ⟨hname, hlen, hL⟩ := hts t (by simp)
    obtain ⟨fuel₁, tpl, htpl⟩ := createTemplateF_terminates ops h1 h2 t.points hlen hL t.name
    have htname : tpl.name = t.name :=
      (createTemplateF_sound ops h1 h2 t.points hlen hL fuel₁ t.name tpl htpl).2
    have hadd : addGestureF ops fuel₁ acc t.name t.points
        = some (acc ++ [tpl], ((acc ++ [tpl]).filter (fun u => u.name == t.name)).length) := by
      simp only [addGestureF, htpl]
    obtain ⟨fuel₂, store', hloop, hnames⟩ :=
      ih (acc ++ [tpl]) (fun u hu => hts u (by simp [hu]))
    refine ⟨max fuel₁ fuel₂, store', ?_, ?_⟩
    · simp only [List.map_cons, importLoop, templateToEntry, Option.getD_some]
      rw [if_pos ⟨hname, by simp⟩]
      have hadd' := addGestureF_mono ops acc t.name t.points fuel₁ (max fuel₁ fuel₂) _
        (le_max_left _ _) hadd
      simp only [hadd']
      exact importLoop_mono ops _ fuel₂ (max fuel₁ fuel₂) _ _ (le_max_right _ _) hloop
    · rw [hnames]
      simp [htname]

/-! ### Score bounds -/

theorem zipDistance_sum_nonneg (ops : Ops) (h1 : SqrtNonneg ops) :
    ∀ l1 l2 : List Point, 0 ≤ (List.zipWith (distance ops) l1 l2).sum
  | [], _ => by simp
  | _ :: _, [] => by simp
  | p :: l1, q :: l2 => by
    have ha := zipDistance_sum_nonneg ops h1 l1 l2
    have hb := distance_nonneg ops h1 p q
    simp only [List.zipWith_cons_cons, List.sum_cons]
    linarith

theorem pathDistance_nonneg (ops : Ops) (h1 : SqrtNonneg ops) (l1 l2 : List Point) :
    0 ≤ pathDistance ops l1 l2 := by
  unfold pathDistance
  have := zipDistance_sum_nonneg ops h1 l1 l2
  positivity

theorem distanceAtAngle_nonneg (ops : Ops) (h1 : SqrtNonneg ops)
    (points : List Point) (template : GestureTemplate) (radians : ℚ) :
    0 ≤ distanceAtAngle ops points template radians :=
  pathDistance_nonneg ops h1 _ _

theorem dabaLoop_nonneg (ops : Ops) (h1 : SqrtNonneg ops) (points : List Point)
    (template : GestureTemplate) (threshold : ℚ) :
    ∀ (fuel : Nat) (st st' : DabaState), 0 ≤ st.f1 → 0 ≤ st.f2 →
      dabaLoop ops points template threshold fuel st = some st' →
      0 ≤ st'.f1 ∧ 0 ≤ st'.f2 := by
  intro fuel
  induction fuel with
  | zero =>
    intro st st' hf1 hf2 hrun
    simp only [dabaLoop] at hrun
    split at hrun
    · exact absurd hrun (by simp)
    · simp only [Option.some.injEq] at hrun
      subst hrun
      exact ⟨hf1, hf2⟩
  | succ fuel ih =>
    intro st st' hf1 hf2 hrun
    simp only [dabaLoop] at hrun
    split at hrun
    · split at hrun
      · exact ih _ st' (distanceAtAngle_nonneg ops h1 points template _) hf1 hrun
      · exact ih _ st' hf2 (distanceAtAngle_nonneg ops h1 points template _) hrun
    · simp only [Option.some.injEq] at hrun
      subst hrun
      exact ⟨hf1, hf2⟩

theorem distanceAtBestAngleF_nonneg (ops : Ops) (h1 : SqrtNonneg ops)
    (fuel : Nat) (points : List Point) (template : GestureTemplate) (a b threshold d : ℚ)
    (hrun : distanceAtBestAngleF ops fuel points template a b threshold = some d) :
    0 ≤ d := by
  simp only [distanceAtBestAngleF] at hrun
  split at hrun
  · exact absurd hrun (by simp)
  · rename_i st heq
    have := dabaLoop_nonneg ops h1 points template threshold fuel _ st
      (distanceAtAngle_nonneg ops h1 points template _)
      (distanceAtAngle_nonneg ops h1 points template _) heq
    simp only [Option.some.injEq] at hrun
    subst hrun
    exact le_min this.1 this.2

theorem templateDistanceF_nonneg (ops : Ops) (h1 : SqrtNonneg ops)
    (hac : ∀ x : ℚ, 0 ≤ ops.acos x) (fuel : Nat) (candidate t : GestureTemplate)
    (useProtractor : Bool) (d : ℚ)
    (hrun : templateDistanceF ops fuel candidate t useProtractor = some d) : 0 ≤ d := by
  simp only [templateDistanceF] at hrun
  split at hrun
  · simp only [Option.some.injEq] at hrun
    subst hrun
    exact hac _
  · exact distanceAtBestAngleF_nonneg ops h1 fuel _ t _ _ _ d hrun

theorem recognizeLoop_nonneg (ops : Ops) (h1 : SqrtNonneg ops)
    (hac : ∀ x : ℚ, 0 ≤ ops.acos x) (fuel : Nat) (candidate : GestureTemplate)
    (useProtractor : Bool) :
    ∀ (ts : List GestureTemplate) (i : Nat) (best : Option (ℚ × Nat)) (bd : ℚ) (bi : Nat),
      (∀ d j, best = some (d, j) → 0 ≤ d) →
      recognizeLoop ops fuel candidate useProtractor i best ts = some (some (bd, bi)) →
      0 ≤ bd := by
  intro ts
  induction ts with
  | nil =>
    intro i best bd bi hbest hrun
    simp only [recognizeLoop, Option.some.injEq] at hrun
    exact hbest bd bi hrun
  | cons t ts ih =>
    intro i best bd bi hbest hrun
    simp only [recognizeLoop] at hrun
    split at hrun
    · exact absurd hrun (by simp)
    · rename_i d heq
      have hd := templateDistanceF_nonneg ops h1 hac fuel candidate t useProtractor d heq
      refine ih (i + 1) _ bd bi ?_ hrun
      intro d' j' hb
      cases best with
      | none =>
        simp only [Option.some.injEq, Prod.mk.injEq] at hb
        exact hb.1 ▸ hd
      | some pr =>
        obtain ⟨bd₀, bi₀⟩ := pr
        by_cases hlt : d < bd₀
        · simp only [if_pos hlt, Option.some.injEq, Prod.mk.injEq] at hb
          exact hb.1 ▸ hd
        · simp only [if_neg hlt, Option.some.injEq, Prod.mk.injEq] at hb
          exact hb.1 ▸ hbest bd₀ bi₀ rfl

/-! ### The selection loop of `recognize` as a fold over the distance list -/

/-- The list of per-template distances computed by `recognize`'s loop
(`none` if any of them diverges). -/
def distsF (ops : Ops) (fuel : Nat) (candidate : GestureTemplate) (useProtractor : Bool) :
    List GestureTemplate → Option (List ℚ)
  | [] => some []
  | t :: ts =>
    match templateDistanceF ops fuel candidate t useProtractor,
          distsF ops fuel candidate useProtractor ts with
    | some d, some ds => some (d :: ds)
    | _, _ => none

/-- The distance list of a `recognize` call (query template built by the
pipeline, then one distance per stored template). -/
def recognizeDists (ops : Ops) (fuel : Nat) (store : List GestureTemplate)
    (points : List Point) (useProtractor : Bool) : Option (List ℚ) :=
  match createTemplateF ops fuel "" points with
  | none => none
  | some candidate => distsF ops fuel candidate useProtractor store

/-- The pure content of `recognize`'s best-match fold over a distance
list: strictly smaller wins, ties keep the incumbent. -/
def bestOf : Option (ℚ × Nat) → Nat → List ℚ → Option (ℚ × Nat)
  | best, _, [] => best
  | best, i, d :: ds =>
    bestOf (match best with
            | none => some (d, i)
            | some (bd, bi) => if d < bd then some (d, i) else some (bd, bi)) (i + 1) ds

theorem recognizeLoop_eq_bestOf (ops : Ops) (fuel : Nat) (candidate : GestureTemplate)
    (useProtractor : Bool) :
    ∀ (ts : List GestureTemplate) (ds : List ℚ) (i : Nat) (best : Option (ℚ × Nat)),
      distsF ops fuel candidate useProtractor ts = some ds →
      recognizeLoop ops fuel candidate useProtractor i best ts = some (bestOf best i ds) := by
  intro ts
  induction ts with
  | nil =>
    intro ds i best hds
    simp only [distsF, Option.some.injEq] at hds
    subst hds
    simp [recognizeLoop, bestOf]
  | cons t ts ih =>
    intro ds i best hds
    simp only [distsF] at hds
    split at hds
    · rename_i d ds' heq heq'
      simp only [Option.some.injEq] at hds
      subst hds
      simp only [recognizeLoop, heq, bestOf]
      exact ih ds' (i + 1) _ heq'
    · exact absurd hds (by simp)

theorem bestOf_no_improve :
    ∀ (ds : List ℚ) (i : Nat) (bd : ℚ) (bi : Nat),
      (∀ k, k < ds.length → bd ≤ ds.getD k 0) →
      bestOf (some (bd, bi)) i ds = some (bd, bi) := by
  intro ds
  induction ds with
  | nil => intro i bd bi _; simp [bestOf]
  | cons d ds ih =>
    intro i bd bi hmin
    have h0 : bd ≤ d := by simpa using hmin 0 (by simp)
    simp only [bestOf, if_neg (not_lt.2 h0)]
    refine ih (i + 1) bd bi ?_
    intro k hk
    simpa [List.getD_cons_succ] using hmin (k + 1) (by simpa using Nat.succ_lt_succ hk)

theorem bestOf_first_min :
    ∀ (ds : List ℚ) (i : Nat) (bd : ℚ) (bi : Nat) (j : Nat),
      j < ds.length →
      (∀ k, k < ds.length → ds.getD j 0 ≤ ds.getD k 0) →
      (∀ k, k < j → ds.getD j 0 < ds.getD k 0) →
      ds.getD j 0 < bd →
      bestOf (some (bd, bi)) i ds = some (ds.getD j 0, i + j) := by
  intro ds
  induction ds with
  | nil => intro i bd bi j hj _ _ _; simp at hj
  | cons d ds ih =>
    intro i bd bi j hj hmin hfirst hbd
    cases j with
    | zero =>
      simp only [List.getD_cons_zero] at hbd ⊢
      simp only [bestOf, if_pos hbd]
      have := bestOf_no_improve ds (i + 1) d i (fun k hk => by
        simpa [List.getD_cons_succ] using hmin (k + 1) (by simpa using Nat.succ_lt_succ hk))
      rw [this]
      simp
    | succ j' =>
      have hj0 : ds.getD j' 0 < d := by
        simpa [List.getD_cons_succ, List.getD_cons_zero] using hfirst 0 (by omega)
      have hj' : j' < ds.length := by simpa using Nat.lt_of_succ_lt_succ hj
      have hmin' : ∀ k, k < ds.length → ds.getD j' 0 ≤ ds.getD k 0 := fun k hk => by
        simpa [List.getD_cons_succ] using hmin (k + 1) (by simpa using Nat.succ_lt_succ hk)
      have hfirst' : ∀ k, k < j' → ds.getD j' 0 < ds.getD k 0 := fun k hk => by
        simpa [List.getD_cons_succ] using hfirst (k + 1) (by omega)
      simp only [List.getD_cons_succ] at hbd ⊢
      simp only [bestOf]
      by_cases hdb : d < bd
      · rw [if_pos hdb, ih (i + 1) d i j' hj' hmin' hfirst' hj0]
        simp only [Option.some.injEq, Prod.mk.injEq, true_and]
        omega
      · rw [if_neg hdb, ih (i + 1) bd bi j' hj' hmin' hfirst' hbd]
        simp only [Option.some.injEq, Prod.mk.injEq, true_and]
        omega

theorem bestOf_none_first_min (ds : List ℚ) (j : Nat)
    (hj : j < ds.length)
    (hmin : ∀ k, k < ds.length → ds.getD j 0 ≤ ds.getD k 0)
    (hfirst : ∀ k, k < j → ds.getD j 0 < ds.getD k 0) :
    bestOf none 0 ds = some (ds.getD j 0, j) := by
  cases ds with
  | nil => simp at hj
  | cons d ds =>
    simp only [bestOf]
    cases j with
    | zero =>
      simp only [List.getD_cons_zero]
      exact bestOf_no_improve ds 1 d 0 (fun k hk => by
        simpa [List.getD_cons_succ] using hmin (k + 1) (by simpa using Nat.succ_lt_succ hk))
    | succ j' =>
      have hj0 : ds.getD j' 0 < d := by
        simpa [List.getD_cons_succ, List.getD_cons_zero] using hfirst 0 (by omega)
      have hj' : j' < ds.length := by simpa using Nat.lt_of_succ_lt_succ hj
      have hmin' : ∀ k, k < ds.length → ds.getD j' 0 ≤ ds.getD k 0 := fun k hk => by
        simpa [List.getD_cons_succ] using hmin (k + 1) (by simpa using Nat.succ_lt_succ hk)
      have hfirst' : ∀ k, k < j' → ds.getD j' 0 < ds.getD k 0 := fun k hk => by
        simpa [List.getD_cons_succ] using hfirst (k + 1) (by omega)
      simp only [List.getD_cons_succ]
      rw [bestOf_first_min ds 1 d 0 j' hj' hmin' hfirst' hj0]
      simp only [Option.some.injEq, Prod.mk.injEq, true_and]
      omega

/-! ## The golden-section search over an arbitrary ordered field

The termination argument for `distanceAtBestAngle` depends on two facts
about the constant `PHI = 0.5 * (-1 + Math.sqrt 5)`: that `0 < PHI < 1`
and the golden-ratio identity `PHI² = 1 - PHI` (equivalently
`(Math.sqrt 5)² = 5`).  The identity has no solution in `ℚ`, so it cannot
be stated of an exact-rational instantiation; the loop is therefore
reproduced verbatim over an arbitrary linearly ordered field `K` (the
per-angle evaluation, `distanceAtAngle` in the source, enters the loop
only as a black-box function `eval : K → K`).  `gsLoop_eq_dabaLoop` below
proves that at `K = ℚ` this is exactly the loop of the embedding. -/

/-- The locals of the golden-section search, over `K`. -/
structure GSState (K : Type) where
  a : K
  b : K
  x1 : K
  f1 : K
  x2 : K
  f2 : K

/-- The `while` loop of `distanceAtBestAngle` (lines 300–314) over an
arbitrary ordered field. -/
def gsLoop {K : Type} [LinearOrderedField K] (phi : K) (eval : K → K) (threshold : K) :
    Nat → GSState K → Option (GSState K)
  | 0, st => if |st.b - st.a| > threshold then none else some st
  | fuel+1, st =>
    if |st.b - st.a| > threshold then
      if st.f1 < st.f2 then
        let b' := st.x2
        let x2' := st.x1
        let f2' := st.f1
        let x1' := phi * st.a + (1 - phi) * b'
        let f1' := eval x1'
        gsLoop phi eval threshold fuel ⟨st.a, b', x1', f1', x2', f2'⟩
      else
        let a' := st.x1
        let x1' := st.x2
        let f1' := st.f2
        let x2' := (1 - phi) * a' + phi * st.b
        let f2' := eval x2'
        gsLoop phi eval threshold fuel ⟨a', st.b, x1', f1', x2', f2'⟩
    else some st

/-- Source `distanceAtBestAngle` (lines 294–317) over an arbitrary ordered
field. -/
def gsSearch {K : Type} [LinearOrderedField K] (phi : K) (eval : K → K)
    (fuel : Nat) (a b threshold : K) : Option K :=
  let x1 := phi * a + (1 - phi) * b
  let f1 := eval x1
  let x2 := (1 - phi) * a + phi * b
  let f2 := eval x2
  match gsLoop phi eval threshold fuel ⟨a, b, x1, f1, x2, f2⟩ with
  | none => none
  | some st => some (min st.f1 st.f2)

/-- View of a `DabaState` as a rational `GSState`. -/
def DabaState.toGS (st : DabaState) : GSState ℚ :=
  ⟨st.a, st.b, st.x1, st.f1, st.x2, st.f2⟩

/-- At `K = ℚ`, `gsLoop` is exactly the loop of the embedding of
`distanceAtBestAngle`. -/
theorem gsLoop_eq_dabaLoop (ops : Ops) (points : List Point)
    (template : GestureTemplate) (threshold : ℚ) :
    ∀ (fuel : Nat) (st : DabaState),
      (dabaLoop ops points template threshold fuel st).map DabaState.toGS
        = gsLoop (PHI ops) (distanceAtAngle ops points template) threshold fuel st.toGS := by
  intro fuel
  induction fuel with
  | zero =>
    intro st
    simp only [dabaLoop, gsLoop, DabaState.toGS]
    split
    · rfl
    · rfl
  | succ fuel ih =>
    intro st
    simp only [dabaLoop, gsLoop, DabaState.toGS]
    split
    · split
      · exact ih _
      · exact ih _
    · rfl

/-- At `K = ℚ`, `gsSearch` is exactly the embedding of
`distanceAtBestAngle`. -/
theorem gsSearch_eq_distanceAtBestAngleF (ops : Ops) (fuel : Nat)
    (points : List Point) (template : GestureTemplate) (a b threshold : ℚ) :
    distanceAtBestAngleF ops fuel points template a b threshold
      = gsSearch (PHI ops) (distanceAtAngle ops points template) fuel a b threshold := by
  simp only [distanceAtBestAngleF, gsSearch]
  have h := gsLoop_eq_dabaLoop ops points template threshold fuel
    ⟨a, b, PHI ops * a + (1 - PHI ops) * b,
      distanceAtAngle ops points template (PHI ops * a + (1 - PHI ops) * b),
      (1 - PHI ops) * a + PHI ops * b,
      distanceAtAngle ops points template ((1 - PHI ops) * a + PHI ops * b)⟩
  cases hd : dabaLoop ops points template threshold fuel
      ⟨a, b, PHI ops * a + (1 - PHI ops) * b,
        distanceAtAngle ops points template (PHI ops * a + (1 - PHI ops) * b),
        (1 - PHI ops) * a + PHI ops * b,
        distanceAtAngle ops points template ((1 - PHI ops) * a + PHI ops * b)⟩ with
  | none =>
    rw [hd] at h
    simp only [Option.map_none', DabaState.toGS] at h
    rw [← h]
  | some st =>
    rw [hd] at h
    simp only [Option.map_some', DabaState.toGS] at h
    rw [← h]

/-- One golden-section iteration preserves the loop invariant (interior
evaluations at the golden positions, memoised values correct) and shrinks
the bracket width by exactly `phi`; by induction the loop terminates once
`phi ^ j · width ≤ threshold`.  Uses `0 < phi < 1` and the golden-ratio
identity `phi² = 1 - phi`, both true of `0.5 · (-1 + √5)`. -/
theorem gsLoop_golden {K : Type} [LinearOrderedField K]
    (phi : K) (eval : K → K) (thr : K)
    (hp0 : 0 < phi) (hp1 : phi < 1) (hgold : phi * phi = 1 - phi) :
    ∀ (j : Nat) (st : GSState K) (fuel : Nat),
      st.f1 = eval st.x1 → st.f2 = eval st.x2 →
      st.x1 = phi * st.a + (1 - phi) * st.b →
      st.x2 = (1 - phi) * st.a + phi * st.b →
      0 < st.b - st.a →
      phi ^ j * (st.b - st.a) ≤ thr →
      j ≤ fuel →
      ∃ st', gsLoop phi eval thr fuel st = some st' ∧
        |st'.b - st'.a| ≤ thr ∧
        st'.f1 = eval st'.x1 ∧ st'.f2 = eval st'.x2 ∧
        ∃ k : Nat, st'.b - st'.a = phi ^ k * (st.b - st.a) := by
  intro j
  induction j with
  | zero =>
    intro st fuel hf1 hf2 _ _ hw hpow _
    have hle : st.b - st.a ≤ thr := by simpa using hpow
    have hexit : gsLoop phi eval thr fuel st = some st := by
      have hng : ¬ |st.b - st.a| > thr := by
        rw [abs_of_pos hw]; exact not_lt.2 hle
      cases fuel <;> simp [gsLoop, hng]
    exact ⟨st, hexit, by rw [abs_of_pos hw]; exact hle, hf1, hf2, 0, by simp⟩
  | succ j ih =>
    intro st fuel hf1 hf2 hx1 hx2 hw hpow hfuel
    by_cases hg : |st.b - st.a| > thr
    · cases fuel with
      | zero => omega
      | succ f =>
        simp only [gsLoop]
        rw [if_pos hg]
        by_cases hf : st.f1 < st.f2
        · rw [if_pos hf]
          have hw' : 0 < st.x2 - st.a := by rw [hx2]; nlinarith
          have hwidth : st.x2 - st.a = phi * (st.b - st.a) := by rw [hx2]; ring
          have hx2' : st.x1 = (1 - phi) * st.a + phi * st.x2 := by
            rw [hx1, hx2]
            linear_combination (st.a - st.b) * hgold
          have hpow' : phi ^ j * (st.x2 - st.a) ≤ thr := by
            rw [hwidth, ← mul_assoc, ← pow_succ]
            exact hpow
          obtain ⟨st', hrun, hthr', hf1', hf2', k, hk⟩ :=
            ih ⟨st.a, st.x2, phi * st.a + (1 - phi) * st.x2,
                eval (phi * st.a + (1 - phi) * st.x2), st.x1, st.f1⟩ f
              rfl (by simpa using hf1) rfl (by simpa using hx2') hw' hpow' (by omega)
          refine ⟨st', hrun, hthr', hf1', hf2', k + 1, ?_⟩
          simp only at hk
          rw [hk, hwidth, ← mul_assoc, ← pow_succ]
        · rw [if_neg hf]
          have hw' : 0 < st.b - st.x1 := by rw [hx1]; nlinarith
          have hwidth : st.b - st.x1 = phi * (st.b - st.a) := by rw [hx1]; ring
          have hx1' : st.x2 = phi * st.x1 + (1 - phi) * st.b := by
            rw [hx1, hx2]
            linear_combination (st.b - st.a) * hgold
          have hpow' : phi ^ j * (st.b - st.x1) ≤ thr := by
            rw [hwidth, ← mul_assoc, ← pow_succ]
            exact hpow
          obtain ⟨st', hrun, hthr', hf1', hf2', k, hk⟩ :=
            ih ⟨st.x1, st.b, st.x2, st.f2,
                (1 - phi) * st.x1 + phi * st.b, eval ((1 - phi) * st.x1 + phi * st.b)⟩ f
              (by simpa using hf2) rfl (by simpa using hx1') rfl hw' hpow' (by omega)
          refine ⟨st', hrun, hthr', hf1', hf2', k + 1, ?_⟩
          simp only at hk
          rw [hk, hwidth, ← mul_assoc, ← pow_succ]
    · have hexit : gsLoop phi eval thr fuel st = some st := by
        cases fuel <;> simp [gsLoop, hg]
      exact ⟨st, hexit, not_lt.1 hg, hf1, hf2, 0, by simp⟩

/-! ## The claims -/



/-- C2 (amended).  `resample` splices each interpolated point into the
caller's array: for every non-degenerate stroke, whenever the loop
completes, the original stroke is a (strict) sublist of the final array
contents, which hold exactly 63 additional points; and the loop does
complete for some fuel. -/
theorem resample_splices_into_caller_stroke (ops : Ops) (pts : List Point)
    (h1 : SqrtNonneg ops) (h2 : SqrtSqMul ops) (hlen : 2 ≤ pts.length)
    (hL : 0 < pathLength ops pts) :
    (∀ fuel np ws, resampleF ops fuel pts NUM_POINTS = some (np, ws) →
      pts.Sublist ws ∧ ws.length = pts.length + 63 ∧ ws ≠ pts) ∧
    (∃ fuel np ws, resampleF ops fuel pts NUM_POINTS = some (np, ws)) := by
  constructor
  · intro fuel np ws h
    obtain ⟨_, hlen', hsub⟩ := resampleF_sound ops h1 h2 pts hlen hL fuel np ws h
    refine ⟨hsub, hlen', fun hcontra => ?_⟩
    rw [hcontra] at hlen'
    omega
  · exact resampleF_terminates ops h1 h2 pts hlen hL


/-- C3 (code_bug).  An import entry whose `points` field is the *empty
array* passes the truthiness guard (`[]` is truthy in JavaScript), so
`addGesture` runs on an empty stroke; `resample` then builds
`[points[0]] = [undefined]` and `centroid` throws a `TypeError`, aborting
the whole import — the entry is not silently skipped and the batch import
does throw.  In the embedding the crash is `none`, for every `ops` and
every fuel; a skip would instead produce `some []`. -/
theorem importTemplates_empty_points_throws :
    ∀ (ops : Ops) (fuel : Nat),
      importTemplatesF ops fuel [⟨"gesture", some []⟩] = none := by
  intro ops fuel
  simp only [importTemplatesF, importLoop]
  rw [if_pos ⟨by decide, rfl⟩]
  simp [addGestureF, createTemplateF, resampleF]

/-- C4 (amended).  For every stroke with at least 2 points and *positive
path length*, `createTemplate` terminates (for some fuel) and every
completed run yields a template with exactly `N = 64` points.  The
restriction is forced: on a stroke of coincident points (length ≥ 2 but
path length 0) the interval is `0`, the first interpolation divides
`0/0 = NaN`, the spliced point is `(NaN, NaN)`, and the next guard
`(distance + d) >= interval` is false on `NaN`, so `resample` exits after
emitting only `[points[0], (NaN, NaN)]` — the pipeline then stores a
2-point template (see `createTemplate_equal_points_two_point_template_cex`,
evaluated in the IEEE-style `JSNum` model, where this run is exact). -/
theorem createTemplate_points_count_64 (ops : Ops) (name : String) (pts : List Point)
    (h1 : SqrtNonneg ops) (h2 : SqrtSqMul ops)
    (hlen : 2 ≤ pts.length) (hL : 0 < pathLength ops pts) :
    (∀ fuel tpl, createTemplateF ops fuel name pts = some tpl →
      tpl.points.length = 64) ∧
    (∃ fuel tpl, createTemplateF ops fuel name pts = some tpl ∧
      tpl.points.length = 64) := by
  constructor
  · intro fuel tpl h
    exact (createTemplateF_sound ops h1 h2 pts hlen hL fuel name tpl h).1
  · obtain ⟨fuel, tpl, h⟩ := createTemplateF_terminates ops h1 h2 pts hlen hL name
    exact ⟨fuel, tpl, h,
      (createTemplateF_sound ops h1 h2 pts hlen hL fuel name tpl h).1⟩


/-- C5 (confirmed).  Every result `recognize` returns has a score in
`[0, 1]`, for both matcher choices, any store, any stroke and any fuel.
Assumes of the `Math` parameters only that `sqrt` is nonnegative on
nonnegative inputs, that `acos` is nonnegative (its real range is
`[0, π]`), and that `sqrt` is positive on the positive constant
`2 · 250²` (so the half-diagonal is positive). -/
theorem recognize_score_in_unit_interval (ops : Ops) (fuel : Nat)
    (store : List GestureTemplate) (pts : List Point) (useProtractor : Bool)
    (r : RecognitionResult) (s' : List GestureTemplate)
    (h1 : SqrtNonneg ops) (hac : ∀ x : ℚ, 0 ≤ ops.acos x)
    (hhd : 0 < ops.sqrt (SQUARE_SIZE * SQUARE_SIZE + SQUARE_SIZE * SQUARE_SIZE))
    (hrun : recognizeF ops fuel store pts useProtractor = some (r, s')) :
    0 ≤ r.score ∧ r.score ≤ 1 := by
  simp only [recognizeF] at hrun
  split at hrun
  · simp only [Option.some.injEq, Prod.mk.injEq] at hrun
    rw [← hrun.1]
    norm_num
  · split at hrun
    · exact absurd hrun (by simp)
    · rename_i cand hcand
      split at hrun
      · exact absurd hrun (by simp)
      · rename_i hloop
        simp only [Option.some.injEq, Prod.mk.injEq] at hrun
        rw [← hrun.1]
        norm_num
      · rename_i bd bm hloop
        have hbd : 0 ≤ bd := recognizeLoop_nonneg ops h1 hac fuel cand useProtractor
          store 0 none bd bm (by simp) hloop
        simp only [Option.some.injEq, Prod.mk.injEq] at hrun
        rw [← hrun.1]
        simp only
        constructor
        · exact le_max_left 0 _
        · refine max_le (by norm_num) ?_
          split
          · linarith
          · have hhd' : 0 < HALF_DIAGONAL ops := by
              simp only [HALF_DIAGONAL, DIAGONAL]
              linarith
            have : 0 ≤ bd / HALF_DIAGONAL ops := div_nonneg hbd (le_of_lt hhd')
            linarith

/-- An `Ops` instantiation for the C5 witness: an indicator square root
(`1` on positive arguments), zero stand-ins elsewhere. -/
def opsB : Ops :=
  ⟨fun q => if q ≤ 0 then 0 else 1, fun _ => 0, fun _ => 1, fun _ => 0,
   fun _ _ => 0, fun _ => 0, 0⟩

theorem recognize_score_in_unit_interval_witness :
    SqrtNonneg opsB ∧ (∀ x : ℚ, 0 ≤ opsB.acos x) ∧
    0 < opsB.sqrt (SQUARE_SIZE * SQUARE_SIZE + SQUARE_SIZE * SQUARE_SIZE) ∧
    recognizeF opsB 0 [] [] false = some (⟨"No match", 0⟩, []) ∧
    (0 ≤ (⟨"No match", 0⟩ : RecognitionResult).score ∧
      (⟨"No match", 0⟩ : RecognitionResult).score ≤ 1) := by
  have hs : SqrtNonneg opsB := by
    intro q _
    simp only [opsB]
    split <;> norm_num
  have hac : ∀ x : ℚ, 0 ≤ opsB.acos x := fun _ => le_refl 0
  have hhd : 0 < opsB.sqrt (SQUARE_SIZE * SQUARE_SIZE + SQUARE_SIZE * SQUARE_SIZE) := by
    norm_num [opsB, SQUARE_SIZE]
  have hrun : recognizeF opsB 0 [] [] false = some (⟨"No match", 0⟩, []) := by
    simp [recognizeF]
  exact ⟨hs, hac, hhd, hrun,
    recognize_score_in_unit_interval opsB 0 [] [] false _ _ hs hac hhd hrun⟩

/-- C6 (confirmed).  A stroke with fewer than 2 points yields
`{name: "No match", score: 0}` immediately (the store is returned
untouched and never consulted; neither the pipeline nor any matcher
runs — the early return needs no fuel). -/
theorem recognize_short_stroke_no_match (ops : Ops) (fuel : Nat)
    (store : List GestureTemplate) (pts : List Point) (useProtractor : Bool)
    (hlen : pts.length < 2) :
    recognizeF ops fuel store pts useProtractor = some (⟨"No match", 0⟩, store) := by
  simp [recognizeF, hlen]

theorem recognize_short_stroke_no_match_witness :
    ([] : List Point).length < 2 ∧
    recognizeF opsW 0 [⟨"A", [], some [0, 0]⟩] [] true
      = some (⟨"No match", 0⟩, [⟨"A", [], some [0, 0]⟩]) :=
  ⟨by decide, recognize_short_stroke_no_match opsW 0 [⟨"A", [], some [0, 0]⟩] [] true (by decide)⟩

/-- C7 (confirmed).  `recognize` returns the name of the *first* stored
template attaining the minimum distance: if `j` is an index of the
distance list `ds` that attains the minimum and beats every earlier index
strictly (i.e. `j` is the first minimum), the returned name is
`store[j].name`.  In particular two geometrically identical templates
added in order A then B yield name A (see the witness). -/
theorem recognize_tie_break_first_min (ops : Ops) (fuel : Nat)
    (store : List GestureTemplate) (pts : List Point) (useProtractor : Bool)
    (r : RecognitionResult) (s' : List GestureTemplate) (ds : List ℚ) (j : Nat)
    (hlen : 2 ≤ pts.length)
    (hds : recognizeDists ops fuel store pts useProtractor = some ds)
    (hj : j < ds.length)
    (hmin : ∀ k, k < ds.length → ds.getD j 0 ≤ ds.getD k 0)
    (hfirst : ∀ k, k < j → ds.getD j 0 < ds.getD k 0)
    (hrun : recognizeF ops fuel store pts useProtractor = some (r, s')) :
    r.name = (store.getD j ⟨"No match", [], none⟩).name := by
  simp only [recognizeDists] at hds
  split at hds
  · exact absurd hds (by simp)
  · rename_i cand hcand
    simp only [recognizeF, if_neg (by omega : ¬ pts.length < 2), hcand] at hrun
    rw [recognizeLoop_eq_bestOf ops fuel cand useProtractor store ds 0 none hds] at hrun
    rw [bestOf_none_first_min ds j hj hmin hfirst] at hrun
    simp only [Option.some.injEq, Prod.mk.injEq] at hrun
    rw [← hrun.1]

/-- The two-identical-templates store for the C7/C10 witnesses: templates
"A" and "B" carry the same vector, so the Protractor distances tie and
the first one added must win. -/
def storeAB : List GestureTemplate :=
  [⟨"A", [], some [0, 0]⟩, ⟨"B", [], some [0, 0]⟩]



/-- C8 (amended).  For every store whose templates all have a non-empty
name and a non-degenerate point list (at least 2 points, positive path
length — true of every template a non-degenerate `addGesture` produced),
`importTemplates(exportTemplates())` succeeds for some fuel and preserves
the name sequence; hence `getTemplateNames` and the *number* of templates
under every name are unchanged.  The template points themselves are
re-derived by re-running normalization on the already-canonical points,
which is not the identity, so point-level equality is not claimed. -/
theorem export_import_roundtrip_names (ops : Ops) (store : List GestureTemplate)
    (h1 : SqrtNonneg ops) (h2 : SqrtSqMul ops)
    (hstore : ∀ t ∈ store, t.name ≠ "" ∧ 2 ≤ t.points.length ∧
      0 < pathLength ops t.points) :
    ∃ fuel store',
      importTemplatesF ops fuel ((exportTemplates store).map templateToEntry)
        = some store' ∧
      store'.map GestureTemplate.name = store.map GestureTemplate.name ∧
      getTemplateNames store' = getTemplateNames store ∧
      ∀ name, (getTemplatesByName store' name).length
        = (getTemplatesByName store name).length := by
  obtain ⟨fuel, store', hrun, hnames⟩ := importLoop_names ops h1 h2 store [] hstore
  have hmn : store'.map GestureTemplate.name = store.map GestureTemplate.name := by
    simpa using hnames
  refine ⟨fuel, store', ?_, hmn, ?_, ?_⟩
  · simpa [importTemplatesF, exportTemplates] using hrun
  · unfold getTemplateNames
    rw [hmn]
  · intro name
    unfold getTemplatesByName
    rw [← List.countP_eq_length_filter, ← List.countP_eq_length_filter]
    have hcp : ∀ s : List GestureTemplate,
        s.countP (fun t => t.name == name)
          = (s.map GestureTemplate.name).countP (fun n => n == name) := by
      intro s
      rw [List.countP_map]
      rfl
    rw [hcp, hcp, hmn]


/-- C9 (confirmed).  The golden-section search of `distanceAtBestAngle`
terminates for every bracket `a < b` and every positive threshold: each
iteration shrinks the bracket width by exactly the factor `PHI`, on exit
the width is at most the threshold, and the returned value is the smaller
of the final two interior evaluations (whose memoised values `f1`, `f2`
are exactly `eval x1`, `eval x2`).  Stated over any Archimedean ordered
field, with the facts `0 < PHI < 1` and `PHI² = 1 - PHI` that hold of the
real constant `0.5 · (-1 + √5)`; the identity has no rational solution,
which is why the statement is not specialised to `ℚ`
(`gsSearch_eq_distanceAtBestAngleF` identifies `gsSearch` at `ℚ` with the
embedding of `distanceAtBestAngle`). -/
theorem distanceAtBestAngle_golden_terminates {K : Type} [LinearOrderedField K]
    [Archimedean K] (phi : K) (eval : K → K) (a b thr : K)
    (hp0 : 0 < phi) (hp1 : phi < 1) (hgold : phi * phi = 1 - phi)
    (hab : a < b) (hthr : 0 < thr) :
    ∃ fuel st,
      gsLoop phi eval thr fuel
        ⟨a, b, phi * a + (1 - phi) * b, eval (phi * a + (1 - phi) * b),
          (1 - phi) * a + phi * b, eval ((1 - phi) * a + phi * b)⟩ = some st ∧
      |st.b - st.a| ≤ thr ∧
      st.f1 = eval st.x1 ∧ st.f2 = eval st.x2 ∧
      (∃ k : Nat, st.b - st.a = phi ^ k * (b - a)) ∧
      gsSearch phi eval fuel a b thr = some (min st.f1 st.f2) := by
  have hw : 0 < b - a := by linarith
  obtain ⟨j, hj⟩ := exists_pow_lt_of_lt_one (div_pos hthr hw) hp1
  have hjw : phi ^ j * (b - a) ≤ thr := le_of_lt ((lt_div_iff hw).1 hj)
  obtain ⟨st, hrun, hthr', hf1', hf2', k, hk⟩ :=
    gsLoop_golden phi eval thr hp0 hp1 hgold j
      ⟨a, b, phi * a + (1 - phi) * b, eval (phi * a + (1 - phi) * b),
        (1 - phi) * a + phi * b, eval ((1 - phi) * a + phi * b)⟩ j
      rfl rfl rfl rfl hw hjw (le_refl j)
  refine ⟨j, st, hrun, hthr', hf1', hf2', ⟨k, by simpa using hk⟩, ?_⟩
  simp only [gsSearch, hrun]

theorem distanceAtBestAngle_golden_terminates_witness :
    (0 : ℝ) < (Real.sqrt 5 - 1) / 2 ∧ (Real.sqrt 5 - 1) / 2 < 1 ∧
    ((Real.sqrt 5 - 1) / 2) * ((Real.sqrt 5 - 1) / 2) = 1 - (Real.sqrt 5 - 1) / 2 ∧
    (0 : ℝ) < 1 ∧ (0 : ℝ) < 1 ∧
    (∃ fuel st,
      gsLoop ((Real.sqrt 5 - 1) / 2) (fun _ => (0 : ℝ)) 1 fuel
        ⟨0, 1, ((Real.sqrt 5 - 1) / 2) * 0 + (1 - (Real.sqrt 5 - 1) / 2) * 1,
          (fun _ => (0 : ℝ)) (((Real.sqrt 5 - 1) / 2) * 0 + (1 - (Real.sqrt 5 - 1) / 2) * 1),
          (1 - (Real.sqrt 5 - 1) / 2) * 0 + ((Real.sqrt 5 - 1) / 2) * 1,
          (fun _ => (0 : ℝ)) ((1 - (Real.sqrt 5 - 1) / 2) * 0 + ((Real.sqrt 5 - 1) / 2) * 1)⟩
        = some st ∧
      |st.b - st.a| ≤ 1 ∧
      st.f1 = (fun _ => (0 : ℝ)) st.x1 ∧ st.f2 = (fun _ => (0 : ℝ)) st.x2 ∧
      (∃ k : Nat, st.b - st.a = ((Real.sqrt 5 - 1) / 2) ^ k * (1 - 0)) ∧
      gsSearch ((Real.sqrt 5 - 1) / 2) (fun _ => (0 : ℝ)) fuel 0 1 1
        = some (min st.f1 st.f2)) := by
  have hsq : Real.sqrt 5 * Real.sqrt 5 = 5 := Real.mul_self_sqrt (by norm_num)
  have h1lt : (1 : ℝ) < Real.sqrt 5 := by
    have : Real.sqrt 1 < Real.sqrt 5 := Real.sqrt_lt_sqrt (by norm_num) (by norm_num)
    simpa using this
  have h3gt : Real.sqrt 5 < 3 := by
    nlinarith [hsq, Real.sqrt_nonneg 5]
  have hp0 : (0 : ℝ) < (Real.sqrt 5 - 1) / 2 := by linarith
  have hp1 : (Real.sqrt 5 - 1) / 2 < 1 := by linarith
  have hgold : ((Real.sqrt 5 - 1) / 2) * ((Real.sqrt 5 - 1) / 2)
      = 1 - (Real.sqrt 5 - 1) / 2 := by
    field_simp
    nlinarith [hsq]
  exact ⟨hp0, hp1, hgold, by norm_num, by norm_num,
    distanceAtBestAngle_golden_terminates ((Real.sqrt 5 - 1) / 2) (fun _ => (0 : ℝ))
      0 1 1 hp0 hp1 hgold (by norm_num) (by norm_num)⟩

/-- C10 (confirmed).  `recognize` never mutates the template store: every
branch returns the store it was given (the method only reads
`this.templates`; the one mutation `recognize` does perform —
`resample`'s splice — targets the caller's input array, not the store). -/
theorem recognize_preserves_store (ops : Ops) (fuel : Nat)
    (store : List GestureTemplate) (pts : List Point) (useProtractor : Bool)
    (r : RecognitionResult) (s' : List GestureTemplate)
    (hrun : recognizeF ops fuel store pts useProtractor = some (r, s')) :
    s' = store := by
  simp only [recognizeF] at hrun
  split at hrun
  · simp only [Option.some.injEq, Prod.mk.injEq] at hrun
    exact hrun.2.symm
  · split at hrun
    · exact absurd hrun (by simp)
    · split at hrun
      · exact absurd hrun (by simp)
      · simp only [Option.some.injEq, Prod.mk.injEq] at hrun
        exact hrun.2.symm
      · simp only [Option.some.injEq, Prod.mk.injEq] at hrun
        exact hrun.2.symm



/-! ## Kernel-evaluated theorems and witnesses

The theorems in this final section evaluate the embedding on concrete
inputs by kernel reduction.  The four arithmetic operations on `Rat` are
marked irreducible upstream purely to keep them from unfolding
accidentally; within this section they are made semireducible so that
`decide` can run them, and the elaborator limits are raised for the deep
fueled recursions. -/

section KernelEvaluation

attribute [local semireducible] Rat.add Rat.sub Rat.mul Rat.inv

set_option maxRecDepth 1000000

set_option maxHeartbeats 2000000

/-- C1 (code_bug).  The spec requires `scaleTo` to guard the division by
the bounding-box extent so that no non-finite coordinate is ever stored;
the code has no guard.  On the straight horizontal stroke
`[(0,0), (10,0)]` the bounding-box height is `0`, `size / 0 = Infinity`,
and `0 · Infinity = NaN`, so the stored template consists of 64 points
whose `y`-coordinate is `NaN`.  (Evaluated in the `JSNum` model with
IEEE-style propagation; `jopsW`'s transcendental stand-ins agree with the
real `Math` functions at every argument of this run.) -/
theorem scaleTo_degenerate_stroke_stores_nan :
    (JS.createTemplateJ jopsW 200 "line"
        [⟨.num 0, .num 0⟩, ⟨.num 10, .num 0⟩]).isSome = true ∧
    ((JS.createTemplateJ jopsW 200 "line"
        [⟨.num 0, .num 0⟩, ⟨.num 10, .num 0⟩]).getD ⟨"", [], none⟩).points.length = 64 ∧
    ((JS.createTemplateJ jopsW 200 "line"
        [⟨.num 0, .num 0⟩, ⟨.num 10, .num 0⟩]).getD ⟨"", [], none⟩).points.all
      (fun p => decide (p.y = JS.JSNum.nan)) = true := by
  decide

/-- C4 (counterexample to the claim as stated).  On the stroke
`[(1,1), (1,1)]` — at least 2 points, but zero path length — the pipeline
*does* produce and store a template, but with 2 points, not 64: the
interval is `0`, the first interpolation computes `0/0 = NaN` and splices
`(NaN, NaN)`, the next guard `(distance + d) >= interval` is false on
`NaN`, so the loop exits with `newPoints = [(1,1), (NaN, NaN)]`, whose
length (2) is not `n - 1` (63), so nothing is appended.  Evaluated in the
IEEE-style `JSNum` model, whose arithmetic is exact on this run; the
stored 2-point template is fully `NaN`-poisoned after rotation about the
`NaN` centroid. -/
theorem createTemplate_equal_points_two_point_template_cex :
    (JS.createTemplateJ jopsW 10 "x"
        [⟨.num 1, .num 1⟩, ⟨.num 1, .num 1⟩]).isSome = true ∧
    ((JS.createTemplateJ jopsW 10 "x"
        [⟨.num 1, .num 1⟩, ⟨.num 1, .num 1⟩]).getD ⟨"", [], none⟩).points.length = 2 ∧
    ((JS.createTemplateJ jopsW 10 "x"
        [⟨.num 1, .num 1⟩, ⟨.num 1, .num 1⟩]).getD ⟨"", [], none⟩).points.all
      (fun p => decide (p.x = JS.JSNum.nan) && decide (p.y = JS.JSNum.nan)) = true := by
  decide

/-- C2 (counterexample to the claim as stated).  `resample` does not leave
the caller's array unchanged: on the stroke `[(0,0), (3,4)]` the loop
completes and the final contents of the caller's array differ from the
original two points (63 interpolated points were spliced in). -/
theorem resample_mutates_caller_stroke_cex :
    ∃ fuel np ws, resampleF opsW fuel [⟨0, 0⟩, ⟨3, 4⟩] NUM_POINTS = some (np, ws) ∧
      ws ≠ [⟨0, 0⟩, ⟨3, 4⟩] := by
  have hL : 0 < pathLength opsW [⟨0, 0⟩, ⟨3, 4⟩] := by decide
  obtain ⟨fuel, np, ws, h⟩ := resampleF_terminates opsW opsW_sqrtNonneg opsW_sqrtSqMul
    [⟨0, 0⟩, ⟨3, 4⟩] (by decide) hL
  obtain ⟨_, hlen', _⟩ := resampleF_sound opsW opsW_sqrtNonneg opsW_sqrtSqMul
    [⟨0, 0⟩, ⟨3, 4⟩] (by decide) hL fuel np ws h
  refine ⟨fuel, np, ws, h, fun hc => ?_⟩
  rw [hc] at hlen'
  simp at hlen'

theorem resample_splices_into_caller_stroke_witness :
    2 ≤ ([⟨0, 0⟩, ⟨3, 4⟩] : List Point).length ∧
    0 < pathLength opsW [⟨0, 0⟩, ⟨3, 4⟩] ∧
    (∃ fuel np ws, resampleF opsW fuel [⟨0, 0⟩, ⟨3, 4⟩] NUM_POINTS = some (np, ws)) := by
  have hL : 0 < pathLength opsW [⟨0, 0⟩, ⟨3, 4⟩] := by decide
  exact ⟨by decide, hL,
    (resample_splices_into_caller_stroke opsW [⟨0, 0⟩, ⟨3, 4⟩] opsW_sqrtNonneg
      opsW_sqrtSqMul (by decide) hL).2⟩

theorem createTemplate_points_count_64_witness :
    2 ≤ ([⟨0, 0⟩, ⟨3, 4⟩] : List Point).length ∧
    0 < pathLength opsW [⟨0, 0⟩, ⟨3, 4⟩] ∧
    (∃ fuel tpl, createTemplateF opsW fuel "w" [⟨0, 0⟩, ⟨3, 4⟩] = some tpl ∧
      tpl.points.length = 64) := by
  have hL : 0 < pathLength opsW [⟨0, 0⟩, ⟨3, 4⟩] := by decide
  exact ⟨by decide, hL,
    (createTemplate_points_count_64 opsW "w" [⟨0, 0⟩, ⟨3, 4⟩] opsW_sqrtNonneg
      opsW_sqrtSqMul (by decide) hL).2⟩

theorem recognize_tie_break_first_min_witness :
    2 ≤ ([⟨0, 0⟩, ⟨3, 4⟩] : List Point).length ∧
    recognizeDists opsW 200 storeAB [⟨0, 0⟩, ⟨3, 4⟩] true = some [0, 0] ∧
    (0 : Nat) < ([0, 0] : List ℚ).length ∧
    recognizeF opsW 200 storeAB [⟨0, 0⟩, ⟨3, 4⟩] true = some (⟨"A", 1⟩, storeAB) ∧
    (⟨"A", 1⟩ : RecognitionResult).name
      = (storeAB.getD 0 ⟨"No match", [], none⟩).name := by
  have hds : recognizeDists opsW 200 storeAB [⟨0, 0⟩, ⟨3, 4⟩] true = some [0, 0] := by
    decide
  have hrun : recognizeF opsW 200 storeAB [⟨0, 0⟩, ⟨3, 4⟩] true
      = some (⟨"A", 1⟩, storeAB) := by decide
  refine ⟨by decide, hds, by decide, hrun, ?_⟩
  exact recognize_tie_break_first_min opsW 200 storeAB [⟨0, 0⟩, ⟨3, 4⟩] true
    ⟨"A", 1⟩ storeAB [0, 0] 0 (by decide) hds (by decide)
    (by decide) (fun k hk => absurd hk (by omega)) hrun

/-- C8 (counterexample to the claim as stated).  The round trip is not
identity-preserving for every store: a stored template whose name is the
empty string (producible via `addGesture("", …)`) is dropped by the
guard of the import (`template.name` is falsy), so `getTemplateNames` differs
after `importTemplates(exportTemplates())`. -/
theorem export_import_roundtrip_cex :
    importTemplatesF opsW 1
        ((exportTemplates [⟨"", [⟨0, 0⟩], none⟩]).map templateToEntry) = some [] ∧
    getTemplateNames ([] : List GestureTemplate)
      ≠ getTemplateNames [⟨"", [⟨0, 0⟩], none⟩] := by
  constructor
  · simp [importTemplatesF, importLoop, exportTemplates, templateToEntry]
  · decide

theorem export_import_roundtrip_names_witness :
    (∀ t ∈ ([⟨"g", [⟨0, 0⟩, ⟨3, 4⟩], none⟩] : List GestureTemplate),
      t.name ≠ "" ∧ 2 ≤ t.points.length ∧ 0 < pathLength opsW t.points) ∧
    (∃ fuel store',
      importTemplatesF opsW fuel
          ((exportTemplates [⟨"g", [⟨0, 0⟩, ⟨3, 4⟩], none⟩]).map templateToEntry)
        = some store' ∧
      store'.map GestureTemplate.name
        = ([⟨"g", [⟨0, 0⟩, ⟨3, 4⟩], none⟩] : List GestureTemplate).map GestureTemplate.name ∧
      getTemplateNames store'
        = getTemplateNames [⟨"g", [⟨0, 0⟩, ⟨3, 4⟩], none⟩] ∧
      ∀ name, (getTemplatesByName store' name).length
        = (getTemplatesByName [⟨"g", [⟨0, 0⟩, ⟨3, 4⟩], none⟩] name).length) := by
  have hstore : ∀ t ∈ ([⟨"g", [⟨0, 0⟩, ⟨3, 4⟩], none⟩] : List GestureTemplate),
      t.name ≠ "" ∧ 2 ≤ t.points.length ∧ 0 < pathLength opsW t.points := by
    decide
  exact ⟨hstore, export_import_roundtrip_names opsW [⟨"g", [⟨0, 0⟩, ⟨3, 4⟩], none⟩]
    opsW_sqrtNonneg opsW_sqrtSqMul hstore⟩

theorem recognize_preserves_store_witness :
    ∃ r s', recognizeF opsW 200 storeAB [⟨0, 0⟩, ⟨3, 4⟩] true = some (r, s') ∧
      s' = storeAB :=
  ⟨⟨"A", 1⟩, storeAB, by decide,
    recognize_preserves_store opsW 200 storeAB [⟨0, 0⟩, ⟨3, 4⟩] true ⟨"A", 1⟩ storeAB
      (by decide)⟩

end KernelEvaluation


end GestureRec
